import Mathlib

/-!
# oxisoft/config: a verification development

A shallow embedding of `config.go`: the `Config` store, its typed accessors
(`GetString`, `GetInt`, `GetBool` and their `...WithError` forms), the key
validator `CheckKeys`, and the loader `NewConfig`.

Conventions of the embedding.

* A Go `string` is a Lean `String`; keys and error messages are compared as
  strings, and `fmt.Errorf` is rendered by string concatenation.
* A Go `error` is `Option String`: `none` is `nil`, `some msg` is an error whose
  `Error()` text is `msg`.
* A Go `int64` is an `Int` in `[-2^63, 2^63)`; conversions that may leave the
  range go through `wrapInt64`.
* A Go `float64` is `Float64` below: an exact dyadic value, an infinity or NaN.
* The map `map[string]interface{}` is an association list read by first match;
  the `nil` map and the empty map are both `[]` (the code only reads the map).
* Library functions (`strconv.ParseInt`) are transcribed from the Go standard
  library, specialised to the arguments `config.go` passes (base 10, 64 bits).
* Of `json.Unmarshal`, the handling of the scanned value (object, `null`, other
  kinds, saved errors) is transcribed; the scanner and `strconv.ParseFloat` are
  parameters (`Decoder`).
-/

namespace Config

/-! ## Machine numbers -/

/-- The smallest `int64`. -/
def minInt64 : Int := -9223372036854775808

/-- The largest `int64`. -/
def maxInt64 : Int := 9223372036854775807

/-- The largest `uint64`. -/
def maxUint64 : Nat := 18446744073709551615

/-- Whether an integer is representable as an `int64`. -/
def inInt64 (x : Int) : Prop := minInt64 ≤ x ∧ x ≤ maxInt64

instance (x : Int) : Decidable (inInt64 x) := by
  unfold inInt64; exact inferInstance

/-- Two's-complement reduction of an integer to the `int64` range. -/
def wrapInt64 (x : Int) : Int := (x + 9223372036854775808) % 18446744073709551616 - 9223372036854775808

/-- The values of a Go `float64`: `finite m e` is the real number `m * 2^e`
(every finite `float64` has this form with `|m| < 2^53`), plus the two
infinities and NaN. The sign of zero is not represented; no operation of
`config.go` observes it. -/
inductive Float64 where
  | finite (m : Int) (e : Int)
  | inf (neg : Bool)
  | nan
  deriving DecidableEq, Repr

/-- The integer part of a `float64`, rounding toward zero; `none` for the
infinities and NaN, which have no integer part. -/
def Float64.trunc : Float64 → Option Int
  | .finite m e => if 0 ≤ e then some (m * 2 ^ e.toNat) else some (Int.tdiv m (2 ^ (-e).toNat))
  | .inf _ => none
  | .nan => none

/-- The Go conversion `int64(v)` of a `float64`. When the integer part of `v`
fits an `int64` the result is that integer part. Otherwise the Go specification
leaves the result implementation-dependent: `ovf v` is what the platform
produces there, reduced to the `int64` range. -/
def Float64.toInt64 (ovf : Float64 → Int) (v : Float64) : Int :=
  match v.trunc with
  | some t => if inInt64 t then t else wrapInt64 (ovf v)
  | none => wrapInt64 (ovf v)

/-! ## Dynamic values and the store -/

/-- The dynamic value held in an `interface{}` slot of the store. `json.Unmarshal`
produces `null` (`nil`), `bool`, `number` (`float64`), `str`, `array` and
`object`; `int64` is the extra dynamic type the type switch of
`GetIntWithError` names. -/
inductive Value where
  | null
  | bool (b : Bool)
  | number (f : Float64)
  | int64 (i : Int)
  | str (s : String)
  | array (xs : List Value)
  | object (kvs : List (String × Value))

/-- The Go type `map[string]interface{}`: entries are read by first match. -/
abbrev GoMap := List (String × Value)

/-- The two-result map read `value, exists := m[key]`: `none` when the key is
absent, `some value` when it is present. -/
def GoMap.get (m : GoMap) (key : String) : Option Value :=
  match m with
  | [] => none
  | (k, v) :: rest => if k = key then some v else GoMap.get rest key

end Config

/-- The store: `type Config struct { data map[string]interface{} }`. -/
structure Config where
  data : Config.GoMap

namespace Config

/-! ## strconv.ParseInt, base 10, 64 bits -/

/-- The two error kinds of `strconv.NumError`. -/
inductive NumErr where
  | ErrSyntax
  | ErrRange
  deriving DecidableEq, Repr

/-- The helper `lower` of `strconv`: `c | (quote x - quote X)`, on the character code. -/
def lower (c : Nat) : Nat := c ||| 32

/-- The digit switch inside the loop of `ParseUint`: the digit value of a
character, or `none` for the `default` branch (a syntax error). The underscore
case is guarded by `base0` and never taken for base 10. A character outside
ASCII is encoded as bytes that are all at least 128, so its first byte takes the
`default` branch, as its code point does here. -/
def digitVal (c : Char) : Option Nat :=
  if 48 ≤ c.toNat ∧ c.toNat ≤ 57 then some (c.toNat - 48)
  else if 97 ≤ lower c.toNat ∧ lower c.toNat ≤ 122 then some (lower c.toNat - 97 + 10)
  else none

/-- The cutoff of `ParseUint` for base 10: `maxUint64/10 + 1`. -/
def cutoff10 : Nat := maxUint64 / 10 + 1

/-- The loop of `ParseUint(s, 10, 64)` over the remaining characters, with the
accumulator `n` (a `uint64`). Returns the pair `(value, err)`. -/
def parseUintLoop : List Char → Nat → Nat × Option NumErr
  | [], n => (n, none)
  | c :: cs, n =>
    match digitVal c with
    | none => (0, some .ErrSyntax)
    | some d =>
      if d ≥ 10 then (0, some .ErrSyntax)
      else if n ≥ cutoff10 then (maxUint64, some .ErrRange)
      else
        let n10 := (n * 10) % 18446744073709551616
        let n1 := (n10 + d) % 18446744073709551616
        if n1 < n10 ∨ n1 > maxUint64 then (maxUint64, some .ErrRange)
        else parseUintLoop cs n1

/-- The call `strconv.ParseUint(s, 10, 64)`, on the characters of `s`. -/
def ParseUint (s : List Char) : Nat × Option NumErr :=
  if s = [] then (0, some .ErrSyntax) else parseUintLoop s 0

/-- The part of `ParseInt` after the sign has been picked off: convert the
unsigned digits, then check the range against `cutoff = 1 << 63`. -/
def parseIntSigned (neg : Bool) (s : List Char) : Int × Option NumErr :=
  match ParseUint s with
  | (_, some .ErrSyntax) => (0, some .ErrSyntax)
  | (un, _) =>
    if !neg && un ≥ 9223372036854775808 then (maxInt64, some .ErrRange)
    else if neg && un > 9223372036854775808 then (minInt64, some .ErrRange)
    else
      let n := wrapInt64 (un : Int)
      (if neg then wrapInt64 (-n) else n, none)

/-- The call `strconv.ParseInt(s, 10, 64)`, on the characters of `s`: the empty
string is a syntax error, a leading sign is picked off. -/
def parseIntChars : List Char → Int × Option NumErr
  | [] => (0, some .ErrSyntax)
  | c :: cs =>
    if c = '+' then parseIntSigned false cs
    else if c = '-' then parseIntSigned true cs
    else parseIntSigned false (c :: cs)

/-- The call `strconv.ParseInt(s, 10, 64)`. -/
def ParseInt (s : String) : Int × Option NumErr := parseIntChars s.data

/-! ## Typed accessors -/

/-- The method `GetStringWithError`: the string stored under `key`, or an error. -/
def GetStringWithError (c : Config) (key : String) : String × Option String :=
  match c.data.get key with
  | some value =>
    match value with
    | .str strValue => (strValue, none)
    | _ => ("", some ("value for key '" ++ key ++ "' is not a string"))
  | none => ("", some ("key '" ++ key ++ "' not found"))

/-- The method `GetString`: the value of `GetStringWithError`, the error dropped. -/
def GetString (c : Config) (key : String) : String :=
  (GetStringWithError c key).1

/-- The method `GetIntWithError`: the `int64` stored under `key`, or an error. The
parameter `ovf` is the platform's result for `int64(v)` on a `float64` outside
the `int64` range (see `Float64.toInt64`). -/
def GetIntWithError (ovf : Float64 → Int) (c : Config) (key : String) : Int × Option String :=
  match c.data.get key with
  | some value =>
    match value with
    | .number v => (v.toInt64 ovf, none)
    | .int64 v => (v, none)
    | .str v =>
      match ParseInt v with
      | (intValue, none) => (intValue, none)
      | (_, some _) => (0, some ("value for key '" ++ key ++ "' is not an int"))
    | _ => (0, some ("value for key '" ++ key ++ "' is not an int"))
  | none => (0, some ("key '" ++ key ++ "' not found"))

/-- The method `GetInt`: the value of `GetIntWithError`, the error dropped. -/
def GetInt (ovf : Float64 → Int) (c : Config) (key : String) : Int :=
  (GetIntWithError ovf c key).1

/-- The method `GetBoolWithError`: the boolean stored under `key`, or an error. -/
def GetBoolWithError (c : Config) (key : String) : Bool × Option String :=
  match c.data.get key with
  | some value =>
    match value with
    | .bool boolValue => (boolValue, none)
    | _ => (false, some ("value for key '" ++ key ++ "' is not a boolean"))
  | none => (false, some ("key '" ++ key ++ "' not found"))

/-- The method `GetBool`: the value of `GetBoolWithError`, the error dropped. -/
def GetBool (c : Config) (key : String) : Bool :=
  (GetBoolWithError c key).1

/-! ## Key validation -/

/-- The method `CheckKeys`: `none` (`nil`) when every key is present with a value that is
neither `nil` nor the empty string; otherwise the error of the first key, in
list order, that fails. -/
def CheckKeys (c : Config) : List String → Option String
  | [] => none
  | key :: keys =>
    match c.data.get key with
    | none => some ("key '" ++ key ++ "' does not exist or is empty")
    | some .null => some ("key '" ++ key ++ "' does not exist or is empty")
    | some (.str strValue) =>
      if strValue = "" then some ("key '" ++ key ++ "' is an empty string")
      else CheckKeys c keys
    | some _ => CheckKeys c keys

/-! ## Loading -/

/-- The part of the host that `NewConfig` calls into: the process environment
(`os.ExpandEnv`), path joining (`filepath.Join`), the filesystem (`os.Stat`,
`os.ReadFile`) and the JSON decoder (`json.Unmarshal` into a `nil`
`map[string]interface{}`). `Stat` returns the error of `os.Stat`: `none` when
`os.Stat` succeeds, which is how `NewConfig` decides that the file exists.
`ReadFile` and `Unmarshal` return the result or the error text. -/
structure Env where
  ExpandEnv : String → String
  Join : String → String → String
  Stat : String → Option String
  ReadFile : String → Except String String
  Unmarshal : String → Except String GoMap

/-- The verb `%v` of `fmt` on a `[]string`: the elements separated by single
spaces, inside square brackets. -/
def fmtStrings (xs : List String) : String := "[" ++ " ".intercalate xs ++ "]"

/-- The candidate file of a search path: the path with its environment
variables expanded, joined with the file name. -/
def candidate (env : Env) (configName path : String) : String :=
  env.Join (env.ExpandEnv path) configName

/-- The body of the `if` in the loop of `NewConfig`, taken once `os.Stat`
succeeded on `fullPath`: read, decode, build the store. -/
def loadFile (env : Env) (fullPath : String) : Option Config × Option String :=
  match env.ReadFile fullPath with
  | .error err => (none, some ("failed to read config file: " ++ err))
  | .ok file =>
    match env.Unmarshal file with
    | .error err => (none, some ("failed to parse config file: " ++ err))
    | .ok configData => (some { data := configData }, none)

/-- The loop of `NewConfig` over the remaining search paths; `configPaths` is
the whole list, kept for the final error message. -/
def newConfigLoop (env : Env) (configName : String) (configPaths : List String) :
    List String → Option Config × Option String
  | [] => (none, some ("config file " ++ configName ++ " not found in paths: " ++ fmtStrings configPaths))
  | path :: rest =>
    match env.Stat (candidate env configName path) with
    | none => loadFile env (candidate env configName path)
    | some _ => newConfigLoop env configName configPaths rest

/-- The function `NewConfig`: the pair `(*Config, error)` it returns. -/
def NewConfig (env : Env) (configName : String) (configPaths : List String) :
    Option Config × Option String :=
  newConfigLoop env configName configPaths configPaths

/-! ## encoding/json: Unmarshal into a map

`NewConfig` hands the file to `json.Unmarshal` with a `nil`
`map[string]interface{}` as target. The grammar of JSON texts (the scanner) and
the conversion of a number literal (`strconv.ParseFloat`) are taken from the
library as the two fields of `Decoder`; what `Unmarshal` does with the scanned
value is transcribed below from `encoding/json/decode.go`. -/

/-- A scanned JSON text: the value it denotes, with number literals kept as
written and the members of an object in the order of the text (a name may occur
more than once). -/
inductive Json where
  | null
  | bool (b : Bool)
  | number (lit : String)
  | str (s : String)
  | array (xs : List Json)
  | object (members : List (String × Json))

/-- The library parts of `encoding/json` that are not transcribed: `scan` is the
scanner (`checkValid` and the reading of the text), returning the value or the
text of the `SyntaxError`; `parseFloat` is `strconv.ParseFloat(lit, 64)` on a
number literal, `none` when it reports `ErrRange`. -/
structure Decoder where
  scan : String → Except String Json
  parseFloat : String → Option Float64

/-- The map store `m[key] = v`: the entry of `key` is replaced when the key is
present, and added otherwise. -/
def GoMap.set (m : GoMap) (key : String) (v : Value) : GoMap :=
  match m with
  | [] => [(key, v)]
  | (k, x) :: rest => if k = key then (k, v) :: rest else (k, x) :: GoMap.set rest key v

/-- The keys of a map, one per entry of the association list. -/
def GoMap.keys (m : GoMap) : List String := m.map Prod.fst

/-- The built-in `len(m)` of a map: its number of distinct keys. -/
def GoMap.len (m : GoMap) : Nat := m.keys.dedup.length

/-- The method `saveError` of the decoder state: the first error is kept. -/
def saveError (saved err : Option String) : Option String :=
  match saved with
  | some e => some e
  | none => err

mutual
/-- The decoding of a value into an `interface{}` (`valueInterface`,
`literalInterface`): the value and the saved error. A number that
`strconv.ParseFloat` rejects saves an `UnmarshalTypeError` and leaves `nil`. -/
def valueInterface (parseFloat : String → Option Float64) : Json → Value × Option String
  | .null => (.null, none)
  | .bool b => (.bool b, none)
  | .number lit =>
    match parseFloat lit with
    | some f => (.number f, none)
    | none =>
      (.null, some ("json: cannot unmarshal number " ++ lit ++ " into Go value of type float64"))
  | .str s => (.str s, none)
  | .array xs =>
    let r := arrayInterface parseFloat xs
    (.array r.1, r.2)
  | .object members =>
    let r := objectInterface parseFloat members []
    (.object r.1, r.2)
/-- The decoding of the elements of an array, in order (`arrayInterface`). -/
def arrayInterface (parseFloat : String → Option Float64) :
    List Json → List Value × Option String
  | [] => ([], none)
  | x :: xs =>
    let v := valueInterface parseFloat x
    let r := arrayInterface parseFloat xs
    (v.1 :: r.1, saveError v.2 r.2)
/-- The decoding of the members of an object into the map `m`, in order
(`objectInterface`, and `object` on a map of `interface{}`): each member is
stored under its name, a later member replacing an earlier one of that name. -/
def objectInterface (parseFloat : String → Option Float64) :
    List (String × Json) → GoMap → GoMap × Option String
  | [], m => (m, none)
  | (key, x) :: rest, m =>
    let v := valueInterface parseFloat x
    let r := objectInterface parseFloat rest (m.set key v.1)
    (r.1, saveError v.2 r.2)
end

/-- The text of the `UnmarshalTypeError` for a top-level value of the kind
`kind` that does not fit the map. -/
def mapTypeError (kind : String) : String :=
  "json: cannot unmarshal " ++ kind ++ " into Go value of type map[string]interface \x7b\x7d"

/-- The call `json.Unmarshal(data, &configData)` with `configData` a `nil`
`map[string]interface{}`: a text the scanner rejects is a `SyntaxError`; an
object fills a new map, and the saved error, if any, is returned; `null` sets
the map to `nil` and is no error; any other value is an `UnmarshalTypeError`. -/
def jsonUnmarshal (dec : Decoder) (data : String) : Except String GoMap :=
  match dec.scan data with
  | .error e => .error e
  | .ok (.object members) =>
    match objectInterface dec.parseFloat members [] with
    | (m, none) => .ok m
    | (_, some e) => .error e
  | .ok .null => .ok []
  | .ok (.bool _) => .error (mapTypeError "bool")
  | .ok (.number _) => .error (mapTypeError "number")
  | .ok (.str _) => .error (mapTypeError "string")
  | .ok (.array _) => .error (mapTypeError "array")

/-! ## Specification-side definitions

These follow the words of the specification, to be compared with the
definitions above. -/

/-- A decimal digit. -/
def isDecDigit (c : Char) : Bool := decide (48 ≤ c.toNat ∧ c.toNat ≤ 57)

/-- The number a string of decimal digits writes, most significant digit first. -/
def decValue (ds : List Char) : Nat := ds.foldl (fun acc c => acc * 10 + (c.toNat - 48)) 0

/-- The number reached from the accumulator `n` by reading the decimal digits
`ds`, without any bound. -/
def decFold (n : Nat) (ds : List Char) : Nat := ds.foldl (fun acc c => acc * 10 + (c.toNat - 48)) n

/-- An optional sign already read (`neg` for a minus), the rest of a base-10
integer literal that fits an `int64`: one or more decimal digits and nothing
else, the signed value lying in `[-2^63, 2^63)`. Returns that value. -/
def signedLiteral? (neg : Bool) (ds : List Char) : Option Int :=
  if ds ≠ [] ∧ ds.all isDecDigit = true then
    let v : Int := if neg then -(decValue ds : Int) else (decValue ds : Int)
    if inInt64 v then some v else none
  else none

/-- A base-10 integer literal that fits an `int64`: an optional sign, then one
or more decimal digits and nothing else (no whitespace), whose value lies in
`[-2^63, 2^63)`. Returns the value of the literal, or `none` when the string is
not one. -/
def int64Literal? (s : String) : Option Int :=
  match s.data with
  | '+' :: ds => signedLiteral? false ds
  | '-' :: ds => signedLiteral? true ds
  | ds => signedLiteral? false ds

/-- The exact value of a finite `float64`, as a rational number. -/
def Float64.toRat? : Float64 → Option ℚ
  | .finite m e => some ((m : ℚ) * (2 : ℚ) ^ e)
  | .inf _ => none
  | .nan => none

/-- Truncation toward zero of a rational number: the floor of a non-negative
number, the ceiling of a negative one. -/
def truncTowardZero (q : ℚ) : Int := if 0 ≤ q then ⌊q⌋ else ⌈q⌉

mutual
/-- Every number literal of a JSON value, at any depth, is one that
`strconv.ParseFloat` converts to a `float64`. -/
def numbersConvert (parseFloat : String → Option Float64) : Json → Bool
  | .null => true
  | .bool _ => true
  | .number lit => (parseFloat lit).isSome
  | .str _ => true
  | .array xs => numbersConvertList parseFloat xs
  | .object members => numbersConvertMembers parseFloat members
/-- The numbers of every element of an array convert. -/
def numbersConvertList (parseFloat : String → Option Float64) : List Json → Bool
  | [] => true
  | x :: xs => numbersConvert parseFloat x && numbersConvertList parseFloat xs
/-- The numbers of every member of an object convert. -/
def numbersConvertMembers (parseFloat : String → Option Float64) :
    List (String × Json) → Bool
  | [] => true
  | (_, x) :: rest => numbersConvert parseFloat x && numbersConvertMembers parseFloat rest
end

/-- The top-level keys of a JSON object, one per member, in the order of the
text. -/
def memberNames (members : List (String × Json)) : List String := members.map Prod.fst

/-- The not-found error of `NewConfig`: it names the file and lists the search
paths as they were passed. -/
def notFoundLoadMsg (configName : String) (configPaths : List String) : String :=
  "config file " ++ configName ++ " not found in paths: " ++ fmtStrings configPaths

/-- The file at `path`, for `configName`, is found by `os.Stat`. -/
def fileExists (env : Env) (configName path : String) : Prop :=
  env.Stat (candidate env configName path) = none

instance (env : Env) (configName path : String) : Decidable (fileExists env configName path) := by
  unfold fileExists; exact inferInstance

/-- A key passes validation: it is present, its value is not `null`, and its
value is not the empty string. -/
def keyPasses (c : Config) (key : String) : Prop :=
  ∃ v, c.data.get key = some v ∧ v ≠ Value.null ∧ v ≠ Value.str ""

instance (c : Config) (key : String) : Decidable (keyPasses c key) :=
  match h : c.data.get key with
  | none => isFalse (fun ⟨_, hv, _⟩ => by rw [h] at hv; exact absurd hv (by simp))
  | some .null => isFalse (fun ⟨_, hv, hn, _⟩ => by rw [h] at hv; exact hn (Option.some.inj hv).symm)
  | some (.str s) =>
    if hs : s = "" then
      isFalse (fun ⟨_, hv, _, he⟩ => by rw [h, hs] at hv; exact he (Option.some.inj hv).symm)
    else isTrue ⟨_, h, by simp, by simp [hs]⟩
  | some (.bool _) => isTrue ⟨_, h, by simp, by simp⟩
  | some (.number _) => isTrue ⟨_, h, by simp, by simp⟩
  | some (.int64 _) => isTrue ⟨_, h, by simp, by simp⟩
  | some (.array _) => isTrue ⟨_, h, by simp, by simp⟩
  | some (.object _) => isTrue ⟨_, h, by simp, by simp⟩

/-- The validation error for a key that is missing or holds `null`. -/
def missingMsg (key : String) : String := "key '" ++ key ++ "' does not exist or is empty"

/-- The validation error for a key that holds the empty string. -/
def emptyStringMsg (key : String) : String := "key '" ++ key ++ "' is an empty string"

/-- The key-not-found error of the strict accessors. -/
def notFoundMsg (key : String) : String := "key '" ++ key ++ "' not found"

/-- The type-mismatch error of `GetStringWithError`. -/
def notStringMsg (key : String) : String := "value for key '" ++ key ++ "' is not a string"

/-- The type-mismatch error of `GetIntWithError`. -/
def notIntMsg (key : String) : String := "value for key '" ++ key ++ "' is not an int"

/-- The type-mismatch error of `GetBoolWithError`. -/
def notBoolMsg (key : String) : String := "value for key '" ++ key ++ "' is not a boolean"

/-! ## Example stores and hosts -/

/-- The store of the tests `TestNewConfig` and `TestCheckKeys`:
`{"key1": "value1", "key2": 9999, "key3": true}`. -/
def testStore : Config :=
  { data := [("key1", .str "value1"), ("key2", .number (.finite 9999 0)), ("key3", .bool true)] }

/-- The store of the test `TestGetInt`: `{"key2": 9999, "key3": "8888"}`. -/
def intStore : Config :=
  { data := [("key2", .number (.finite 9999 0)), ("key3", .str "8888")] }

/-- The second store of `TestCheckKeys`: `{"key1": ""}`. -/
def emptyStringStore : Config := { data := [("key1", .str "")] }

/-- The `float64` nearest to 3.7: `8331659310635418 * 2^-51`. -/
def f3_7 : Float64 := .finite 8331659310635418 (-51)

/-- The `float64` nearest to -3.7. -/
def fNeg3_7 : Float64 := .finite (-8331659310635418) (-51)

/-- The `float64` of the JSON number `1e19`, exactly `19073486328125 * 2^19`. -/
def f1e19 : Float64 := .finite 19073486328125 19

/-- A store holding numbers: `{"a": 3.7, "b": -3.7, "big": 1e19}`. -/
def numberStore : Config :=
  { data := [("a", .number f3_7), ("b", .number fNeg3_7), ("big", .number f1e19)] }

/-- A store of values that are present and neither `null` nor the empty
string: `{"n": 0, "b": false, "arr": [], "obj": {}}`. -/
def zeroStore : Config :=
  { data := [("n", .number (.finite 0 0)), ("b", .bool false), ("arr", .array []), ("obj", .object [])] }

/-- A store of strings and numbers that look like booleans or integers:
`{"t": "true", "f": "false", "one": 1, "zero": 0, "n": "1"}`. -/
def looksBoolStore : Config :=
  { data := [("t", .str "true"), ("f", .str "false"), ("one", .number (.finite 1 0)),
      ("zero", .number (.finite 0 0)), ("n", .str "1")] }

/-- A store holding, besides a string, one value of each variant that no typed
accessor reads as a string or a boolean:
`{"s": "", "nul": null, "arr": [1], "obj": {"k": true}, "b": true}`. -/
def variantStore : Config :=
  { data := [("s", .str ""), ("nul", .null), ("arr", .array [.number (.finite 1 0)]),
      ("obj", .object [("k", .bool true)]), ("b", .bool true)] }

/-- A host with two directories that both hold `config.json`, with different
content: `/a/config.json` is `{"k": "A"}` and `/b/config.json` is `{"k": "B"}`;
no other file exists and the paths contain no environment variable. -/
def twoDirEnv : Env where
  ExpandEnv := fun path => path
  Join := fun dir name => dir ++ "/" ++ name
  Stat := fun p =>
    if p = "/a/config.json" ∨ p = "/b/config.json" then none
    else some ("stat " ++ p ++ ": no such file or directory")
  ReadFile := fun p =>
    if p = "/a/config.json" then .ok "\x7b\"k\": \"A\"\x7d"
    else if p = "/b/config.json" then .ok "\x7b\"k\": \"B\"\x7d"
    else .error ("open " ++ p ++ ": no such file or directory")
  Unmarshal := fun file =>
    if file = "\x7b\"k\": \"A\"\x7d" then .ok [("k", .str "A")]
    else if file = "\x7b\"k\": \"B\"\x7d" then .ok [("k", .str "B")]
    else .error "invalid character"

/-- The text of the test files: `{"key1": "value1", "key2": 9999, "key3": true}`. -/
def testText : String := "\x7b\"key1\": \"value1\", \"key2\": 9999, \"key3\": true\x7d"

/-- A valid JSON object with a number beyond the `float64` range: `{"big": 1e400}`. -/
def bigNumberText : String := "\x7b\"big\": 1e400\x7d"

/-- A valid JSON object with a repeated key: `{"a": 1, "a": 2}`. -/
def repeatedKeyText : String := "\x7b\"a\": 1, \"a\": 2\x7d"

/-- What the library does on the texts used as examples: the scanner on `null`,
on the text of the tests, on `{"big": 1e400}`, on `{"a": 1, "a": 2}`, on `[1]`
and on the truncated text `{`, and `strconv.ParseFloat` on the number literals
of these texts (`1e400` is out of range). No other text is given to it. -/
def exampleDecoder : Decoder where
  scan := fun data =>
    if data = "null" then .ok .null
    else if data = testText then
      .ok (.object [("key1", .str "value1"), ("key2", .number "9999"), ("key3", .bool true)])
    else if data = bigNumberText then .ok (.object [("big", .number "1e400")])
    else if data = repeatedKeyText then .ok (.object [("a", .number "1"), ("a", .number "2")])
    else if data = "[1]" then .ok (.array [.number "1"])
    else .error "unexpected end of JSON input"
  parseFloat := fun lit =>
    if lit = "9999" then some (.finite 9999 0)
    else if lit = "1" then some (.finite 1 0)
    else if lit = "2" then some (.finite 2 0)
    else none

/-- A host with the single file `/etc/app/config.json`, of the given content,
decoded by `json.Unmarshal`; the paths contain no environment variable. -/
def oneFileEnv (content : String) : Env where
  ExpandEnv := fun path => path
  Join := fun dir name => dir ++ "/" ++ name
  Stat := fun p =>
    if p = "/etc/app/config.json" then none
    else some ("stat " ++ p ++ ": no such file or directory")
  ReadFile := fun p =>
    if p = "/etc/app/config.json" then .ok content
    else .error ("open " ++ p ++ ": no such file or directory")
  Unmarshal := jsonUnmarshal exampleDecoder

/-! ## Lemmas on `strconv.ParseInt` -/

theorem decFold_nil (n : Nat) : decFold n [] = n := rfl

theorem decFold_cons (n : Nat) (c : Char) (cs : List Char) :
    decFold n (c :: cs) = decFold (n * 10 + (c.toNat - 48)) cs := rfl

theorem decValue_eq_decFold (ds : List Char) : decValue ds = decFold 0 ds := rfl

theorem le_decFold (cs : List Char) : ∀ n, n ≤ decFold n cs := by
  induction cs with
  | nil => intro n; exact Nat.le_refl n
  | cons c cs ih =>
    intro n
    rw [decFold_cons]
    have := ih (n * 10 + (c.toNat - 48))
    omega

theorem digitVal_of_digit (c : Char) (h : isDecDigit c = true) :
    digitVal c = some (c.toNat - 48) ∧ c.toNat - 48 < 10 := by
  simp only [isDecDigit, decide_eq_true_eq] at h
  refine ⟨by simp [digitVal, h], by omega⟩

theorem digitVal_of_not_digit (c : Char) (h : isDecDigit c = false) :
    digitVal c = none ∨ ∃ d, digitVal c = some d ∧ 10 ≤ d := by
  simp only [isDecDigit, decide_eq_false_iff_not] at h
  unfold digitVal
  rw [if_neg h]
  split
  · right; exact ⟨_, rfl, by omega⟩
  · left; rfl


theorem parseUintLoop_ok (cs : List Char) : ∀ n, n ≤ maxUint64 →
    cs.all isDecDigit = true → decFold n cs ≤ maxUint64 →
    parseUintLoop cs n = (decFold n cs, none) := by
  induction cs with
  | nil => intro n _ _ _; rfl
  | cons c cs ih =>
    intro n hn hall hle
    simp only [List.all_cons, Bool.and_eq_true] at hall
    obtain ⟨hd, hlt⟩ := digitVal_of_digit c hall.1
    rw [decFold_cons] at hle
    have hmono := le_decFold cs (n * 10 + (c.toNat - 48))
    simp only [maxUint64] at hn hle
    have hstep : n * 10 + (c.toNat - 48) ≤ 18446744073709551615 := by omega
    rw [parseUintLoop, hd]
    simp only [cutoff10, maxUint64]
    rw [if_neg (by omega), if_neg (by omega)]
    have e1 : n * 10 % 18446744073709551616 = n * 10 := Nat.mod_eq_of_lt (by omega)
    have e2 : (n * 10 + (c.toNat - 48)) % 18446744073709551616 = n * 10 + (c.toNat - 48) :=
      Nat.mod_eq_of_lt (by omega)
    simp only [e1, e2]
    rw [if_neg (by omega), decFold_cons]
    exact ih _ (by simp only [maxUint64]; omega) hall.2 (by simp only [maxUint64]; omega)

theorem parseUintLoop_err (cs : List Char) : ∀ n, n ≤ maxUint64 →
    ¬ (cs.all isDecDigit = true ∧ decFold n cs ≤ maxUint64) →
    parseUintLoop cs n = (0, some .ErrSyntax) ∨ parseUintLoop cs n = (maxUint64, some .ErrRange) := by
  induction cs with
  | nil =>
    intro n hn h
    exact absurd ⟨rfl, hn⟩ h
  | cons c cs ih =>
    intro n hn h
    cases hc : isDecDigit c with
    | false =>
      rcases digitVal_of_not_digit c hc with h0 | ⟨d, h0, hd⟩
      · left; rw [parseUintLoop, h0]
      · left; rw [parseUintLoop, h0]; simp only []; rw [if_pos hd]
    | true =>
      obtain ⟨hd, hlt⟩ := digitVal_of_digit c hc
      have hmono := le_decFold cs (n * 10 + (c.toNat - 48))
      simp only [List.all_cons, hc, Bool.true_and, decFold_cons] at h
      rw [parseUintLoop, hd]
      simp only [cutoff10, maxUint64] at hn ⊢
      rw [if_neg (by omega)]
      by_cases hcut : n ≥ 18446744073709551615 / 10 + 1
      · right; rw [if_pos hcut]
      · rw [if_neg hcut]
        have e1 : n * 10 % 18446744073709551616 = n * 10 := Nat.mod_eq_of_lt (by omega)
        simp only [e1]
        by_cases hov : n * 10 + (c.toNat - 48) < 18446744073709551616
        · have e2 : (n * 10 + (c.toNat - 48)) % 18446744073709551616 = n * 10 + (c.toNat - 48) :=
            Nat.mod_eq_of_lt hov
          simp only [e2]
          rw [if_neg (by omega)]
          exact ih _ (by simp only [maxUint64]; omega) h
        · right
          rw [if_pos]
          left
          omega


theorem signedLiteral?_some (neg : Bool) (s : List Char) (v : Int)
    (h : signedLiteral? neg s = some v) :
    s ≠ [] ∧ s.all isDecDigit = true ∧
      v = (if neg then -(decFold 0 s : Int) else (decFold 0 s : Int)) ∧ inInt64 v := by
  unfold signedLiteral? at h
  by_cases hs : s ≠ [] ∧ s.all isDecDigit = true
  · rw [if_pos hs] at h
    simp only [] at h
    by_cases hr : inInt64 (if neg then -(decValue s : Int) else (decValue s : Int))
    · rw [if_pos hr] at h
      injection h with h
      subst h
      exact ⟨hs.1, hs.2, rfl, hr⟩
    · rw [if_neg hr] at h
      exact absurd h (by simp)
  · rw [if_neg hs] at h
    exact absurd h (by simp)

theorem parseIntSigned_some (neg : Bool) (s : List Char) (v : Int)
    (h : signedLiteral? neg s = some v) : parseIntSigned neg s = (v, none) := by
  obtain ⟨hne, hall, hv, hr⟩ := signedLiteral?_some neg s v h
  simp only [inInt64, minInt64, maxInt64] at hr
  have hle : decFold 0 s ≤ maxUint64 := by
    simp only [maxUint64]; cases neg <;> simp at hv <;> omega
  have hu : ParseUint s = (decFold 0 s, none) := by
    rw [ParseUint, if_neg hne]
    exact parseUintLoop_ok s 0 (by simp [maxUint64]) hall hle
  unfold parseIntSigned
  rw [hu]
  cases neg
  · simp at hv
    simp [wrapInt64]
    rw [if_neg (by omega)]
    simp only [Prod.mk.injEq, and_true]
    omega
  · simp at hv
    simp [wrapInt64]
    rw [if_neg (by omega)]
    simp only [Prod.mk.injEq, and_true]
    omega


theorem parseIntSigned_none (neg : Bool) (s : List Char)
    (h : signedLiteral? neg s = none) : ∃ x e, parseIntSigned neg s = (x, some e) := by
  unfold signedLiteral? at h
  by_cases hs : s = []
  · subst hs
    exact ⟨0, .ErrSyntax, by simp [parseIntSigned, ParseUint]⟩
  · by_cases hok : s.all isDecDigit = true ∧ decFold 0 s ≤ maxUint64
    · rw [if_pos ⟨hs, hok.1⟩] at h
      simp only [] at h
      have hu : ParseUint s = (decFold 0 s, none) := by
        rw [ParseUint, if_neg hs]
        exact parseUintLoop_ok s 0 (by simp [maxUint64]) hok.1 hok.2
      have hr : ¬ inInt64 (if neg then -(decValue s : Int) else (decValue s : Int)) := by
        intro hr
        rw [if_pos hr] at h
        exact absurd h (by simp)
      rw [decValue_eq_decFold] at hr
      simp only [inInt64, minInt64, maxInt64] at hr
      unfold parseIntSigned
      rw [hu]
      cases neg
      · simp at hr
        refine ⟨maxInt64, .ErrRange, ?_⟩
        simp
        omega
      · simp at hr
        refine ⟨minInt64, .ErrRange, ?_⟩
        simp
        omega
    · have hu : ParseUint s = (0, some .ErrSyntax) ∨ ParseUint s = (maxUint64, some .ErrRange) := by
        rw [ParseUint, if_neg hs]
        exact parseUintLoop_err s 0 (by simp [maxUint64]) hok
      unfold parseIntSigned
      rcases hu with hu | hu
      · rw [hu]
        exact ⟨0, .ErrSyntax, rfl⟩
      · rw [hu]
        cases neg
        · exact ⟨maxInt64, .ErrRange, by simp [maxUint64]⟩
        · exact ⟨minInt64, .ErrRange, by simp [maxUint64]⟩

theorem parseInt_some (s : String) (v : Int) (h : int64Literal? s = some v) :
    ParseInt s = (v, none) := by
  unfold int64Literal? at h
  unfold ParseInt
  split at h
  · rename_i ds hd
    rw [hd]
    simp only [parseIntChars, if_true]
    exact parseIntSigned_some _ _ _ h
  · rename_i ds hd
    rw [hd]
    simp only [parseIntChars, if_true]
    exact parseIntSigned_some _ _ _ h
  · rename_i ds hp hm
    cases hd : s.data with
    | nil =>
      rw [hd] at h
      exact absurd (signedLiteral?_some _ _ _ h).1 (by simp)
    | cons c cs =>
      rw [hd] at h
      have h1 : c ≠ '+' := fun e => hp cs (by rw [hd, e])
      have h2 : c ≠ '-' := fun e => hm cs (by rw [hd, e])
      simp only [parseIntChars]
      rw [if_neg h1, if_neg h2]
      exact parseIntSigned_some _ _ _ h

theorem parseInt_none (s : String) (h : int64Literal? s = none) :
    ∃ x e, ParseInt s = (x, some e) := by
  unfold int64Literal? at h
  unfold ParseInt
  split at h
  · rename_i ds hd
    rw [hd]
    simp only [parseIntChars, if_true]
    exact parseIntSigned_none _ _ h
  · rename_i ds hd
    rw [hd]
    simp only [parseIntChars, if_true]
    exact parseIntSigned_none _ _ h
  · rename_i ds hp hm
    cases hd : s.data with
    | nil => exact ⟨0, .ErrSyntax, rfl⟩
    | cons c cs =>
      rw [hd] at h
      have h1 : c ≠ '+' := fun e => hp cs (by rw [hd, e])
      have h2 : c ≠ '-' := fun e => hm cs (by rw [hd, e])
      simp only [parseIntChars]
      rw [if_neg h1, if_neg h2]
      exact parseIntSigned_none _ _ h


/-! ## Lemmas on the conversion of a `float64` -/

theorem truncTowardZero_intCast (z : Int) : truncTowardZero (z : ℚ) = z := by
  unfold truncTowardZero
  split
  · exact Int.floor_intCast z
  · exact Int.ceil_intCast z

theorem truncTowardZero_div (m : Int) (d : Nat) (hd : 0 < d) :
    truncTowardZero ((m : ℚ) / (d : ℚ)) = Int.tdiv m (d : Int) := by
  have hdq : (0 : ℚ) < (d : ℚ) := by exact_mod_cast hd
  unfold truncTowardZero
  by_cases hm : 0 ≤ m
  · have hq : (0 : ℚ) ≤ (m : ℚ) / (d : ℚ) := div_nonneg (by exact_mod_cast hm) hdq.le
    rw [if_pos hq, Rat.floor_intCast_div_natCast, Int.tdiv_eq_ediv hm (by omega)]
  · have hm' : m < 0 := by omega
    have hq : ¬ (0 : ℚ) ≤ (m : ℚ) / (d : ℚ) := by
      rw [not_le]
      exact div_neg_of_neg_of_pos (by exact_mod_cast hm') hdq
    rw [if_neg hq]
    have e1 : (m : ℚ) / (d : ℚ) = -(((-m : Int) : ℚ) / (d : ℚ)) := by
      push_cast; ring
    rw [e1, Int.ceil_neg, Rat.floor_intCast_div_natCast,
      ← Int.tdiv_eq_ediv (by omega) (by omega), Int.neg_tdiv, neg_neg]

theorem trunc_finite (m e : Int) :
    (Float64.finite m e).trunc = some (truncTowardZero ((m : ℚ) * (2 : ℚ) ^ e)) := by
  simp only [Float64.trunc]
  by_cases he : 0 ≤ e
  · rw [if_pos he]
    obtain ⟨k, rfl⟩ := Int.eq_ofNat_of_zero_le he
    have : (m : ℚ) * (2 : ℚ) ^ (k : Int) = ((m * 2 ^ k : Int) : ℚ) := by
      push_cast; rw [zpow_natCast]
    rw [this, truncTowardZero_intCast]
    simp
  · rw [if_neg he]
    obtain ⟨k, hk⟩ := Int.eq_ofNat_of_zero_le (show 0 ≤ -e by omega)
    have he' : e = -(k : Int) := by omega
    have : (m : ℚ) * (2 : ℚ) ^ e = (m : ℚ) / ((2 ^ k : Nat) : ℚ) := by
      rw [he', zpow_neg, zpow_natCast]; push_cast; rw [div_eq_mul_inv]
    rw [this, truncTowardZero_div m (2 ^ k) (by positivity), hk]
    simp


theorem inInt64_wrapInt64 (x : Int) : inInt64 (wrapInt64 x) := by
  unfold inInt64 wrapInt64 minInt64 maxInt64
  omega

/-! ## Lemmas on error messages -/

theorem head_append_lit (a b : String) (c : Char) (cs : List Char) (h : a.data = c :: cs) :
    (a ++ b).data.head? = some c := by
  rw [String.data_append, h]; rfl

theorem typeMsg_ne_notFound (key key2 kind : String) :
    "value for key '" ++ key ++ kind ≠ notFoundMsg key2 := by
  intro h
  have h1 : ("value for key '" ++ key ++ kind).data.head? = some 'v' := by
    rw [String.append_assoc]
    exact head_append_lit _ _ 'v' _ rfl
  have h2 : (notFoundMsg key2).data.head? = some 'k' := by
    unfold notFoundMsg
    rw [String.append_assoc]
    exact head_append_lit _ _ 'k' _ rfl
  rw [h, h2] at h1
  exact absurd h1 (by decide)

/-! ## Lemmas on the accessors and on `CheckKeys` -/

theorem getIntWithError_of_number (ovf : Float64 → Int) (c : Config) (key : String)
    (x : Float64) (h : c.data.get key = some (.number x)) :
    GetIntWithError ovf c key = (x.toInt64 ovf, none) := by
  unfold GetIntWithError
  rw [h]

theorem inInt64_toInt64 (ovf : Float64 → Int) (x : Float64) : inInt64 (x.toInt64 ovf) := by
  simp only [Float64.toInt64]
  split
  · split
    · assumption
    · exact inInt64_wrapInt64 _
  · exact inInt64_wrapInt64 _

/-- What `CheckKeys` does at the head of its list, by the state of that key:
it moves on when the key passes, and stops with the matching error otherwise. -/
theorem checkKeys_head (c : Config) (key : String) :
    (keyPasses c key ∧ ∀ keys, CheckKeys c (key :: keys) = CheckKeys c keys)
    ∨ (¬ keyPasses c key ∧ (c.data.get key = none ∨ c.data.get key = some .null)
        ∧ ∀ keys, CheckKeys c (key :: keys) = some (missingMsg key))
    ∨ (¬ keyPasses c key ∧ c.data.get key = some (.str "")
        ∧ ∀ keys, CheckKeys c (key :: keys) = some (emptyStringMsg key)) := by
  cases hg : c.data.get key with
  | none =>
    right; left
    refine ⟨?_, Or.inl rfl, ?_⟩
    · rintro ⟨v, hv, _⟩
      rw [hg] at hv
      exact absurd hv (by simp)
    · intro keys
      simp only [CheckKeys, hg, missingMsg]
  | some v =>
    cases v with
    | null =>
      right; left
      refine ⟨?_, Or.inr rfl, ?_⟩
      · rintro ⟨v, hv, hn, _⟩
        rw [hg] at hv
        exact hn (Option.some.inj hv).symm
      · intro keys
        simp only [CheckKeys, hg, missingMsg]
    | str s =>
      by_cases hs : s = ""
      · subst hs
        right; right
        refine ⟨?_, rfl, ?_⟩
        · rintro ⟨v, hv, _, he⟩
          rw [hg] at hv
          exact he (Option.some.inj hv).symm
        · intro keys
          simp only [CheckKeys, hg, emptyStringMsg, if_true]
      · left
        refine ⟨⟨_, hg, by simp, by simp [hs]⟩, ?_⟩
        intro keys
        simp only [CheckKeys, hg, if_neg hs]
    | bool b =>
      left
      exact ⟨⟨_, hg, by simp, by simp⟩, fun keys => by simp only [CheckKeys, hg]⟩
    | number f =>
      left
      exact ⟨⟨_, hg, by simp, by simp⟩, fun keys => by simp only [CheckKeys, hg]⟩
    | int64 i =>
      left
      exact ⟨⟨_, hg, by simp, by simp⟩, fun keys => by simp only [CheckKeys, hg]⟩
    | array xs =>
      left
      exact ⟨⟨_, hg, by simp, by simp⟩, fun keys => by simp only [CheckKeys, hg]⟩
    | object kvs =>
      left
      exact ⟨⟨_, hg, by simp, by simp⟩, fun keys => by simp only [CheckKeys, hg]⟩

theorem checkKeys_none_iff_all (c : Config) (keys : List String) :
    CheckKeys c keys = none ↔ ∀ key ∈ keys, keyPasses c key := by
  induction keys with
  | nil => simp [CheckKeys]
  | cons k ks ih =>
    rcases checkKeys_head c k with ⟨hp, hk⟩ | ⟨hp, _, hk⟩ | ⟨hp, _, hk⟩
    · rw [hk, ih]
      simp [hp]
    · rw [hk]
      simp [hp]
    · rw [hk]
      simp [hp]

/-! ## Lemmas on `NewConfig` -/

theorem newConfigLoop_first_match (env : Env) (configName : String) (all pre : List String)
    (path : String) (post : List String)
    (hpre : ∀ q ∈ pre, env.Stat (candidate env configName q) ≠ none)
    (hpath : env.Stat (candidate env configName path) = none) :
    newConfigLoop env configName all (pre ++ path :: post)
      = loadFile env (candidate env configName path) := by
  induction pre with
  | nil =>
    simp only [List.nil_append, newConfigLoop, hpath]
  | cons q qs ih =>
    have hq : env.Stat (candidate env configName q) ≠ none := hpre q (List.mem_cons_self q qs)
    obtain ⟨e, he⟩ := Option.ne_none_iff_exists'.mp hq
    simp only [List.cons_append, newConfigLoop, he]
    exact ih (fun q' hq' => hpre q' (List.mem_cons_of_mem q hq'))

/-! ## Lemmas on `json.Unmarshal` -/

theorem saveError_eq_none (a b : Option String) : saveError a b = none ↔ a = none ∧ b = none := by
  cases a <;> simp [saveError]

mutual
theorem valueInterface_ok_iff (pf : String → Option Float64) :
    ∀ j, (valueInterface pf j).2 = none ↔ numbersConvert pf j = true
  | .null => by simp [valueInterface, numbersConvert]
  | .bool _ => by simp [valueInterface, numbersConvert]
  | .number lit => by
    cases h : pf lit <;> simp [valueInterface, numbersConvert, h]
  | .str _ => by simp [valueInterface, numbersConvert]
  | .array xs => by
    simp only [valueInterface, numbersConvert]
    exact arrayInterface_ok_iff pf xs
  | .object members => by
    simp only [valueInterface, numbersConvert]
    exact objectInterface_ok_iff pf members []
theorem arrayInterface_ok_iff (pf : String → Option Float64) :
    ∀ xs, (arrayInterface pf xs).2 = none ↔ numbersConvertList pf xs = true
  | [] => by simp [arrayInterface, numbersConvertList]
  | x :: xs => by
    simp only [arrayInterface, numbersConvertList, saveError_eq_none, Bool.and_eq_true]
    rw [valueInterface_ok_iff pf x, arrayInterface_ok_iff pf xs]
theorem objectInterface_ok_iff (pf : String → Option Float64) :
    ∀ members m, (objectInterface pf members m).2 = none ↔ numbersConvertMembers pf members = true
  | [], _ => by simp [objectInterface, numbersConvertMembers]
  | (key, x) :: rest, m => by
    simp only [objectInterface, numbersConvertMembers, saveError_eq_none, Bool.and_eq_true]
    rw [valueInterface_ok_iff pf x, objectInterface_ok_iff pf rest]
end

theorem mem_keys_set (m : GoMap) (key : String) (v : Value) (k : String) :
    k ∈ (m.set key v).keys ↔ k = key ∨ k ∈ m.keys := by
  induction m with
  | nil => simp [GoMap.set, GoMap.keys]
  | cons e rest ih =>
    obtain ⟨k0, x⟩ := e
    simp only [GoMap.keys] at ih
    by_cases h : k0 = key
    · simp only [GoMap.set, if_pos h, GoMap.keys, List.map_cons, List.mem_cons]
      rw [h]
      tauto
    · simp only [GoMap.set, if_neg h, GoMap.keys, List.map_cons, List.mem_cons, ih]
      tauto

theorem mem_keys_objectInterface (pf : String → Option Float64) (members : List (String × Json)) :
    ∀ (m : GoMap) (k : String),
      k ∈ (objectInterface pf members m).1.keys ↔ k ∈ m.keys ∨ k ∈ memberNames members := by
  induction members with
  | nil => intro m k; simp [objectInterface, memberNames]
  | cons e rest ih =>
    intro m k
    obtain ⟨key, x⟩ := e
    simp only [objectInterface, memberNames, List.map_cons, List.mem_cons]
    rw [ih, mem_keys_set]
    simp only [memberNames]
    tauto

theorem get_ne_none_iff_mem_keys (m : GoMap) (k : String) : m.get k ≠ none ↔ k ∈ m.keys := by
  induction m with
  | nil => simp [GoMap.get, GoMap.keys]
  | cons e rest ih =>
    obtain ⟨k0, x⟩ := e
    simp only [GoMap.keys] at ih
    by_cases h : k0 = k
    · simp [GoMap.get, GoMap.keys, h]
    · simp only [GoMap.get, if_neg h, GoMap.keys, List.map_cons, List.mem_cons, ih]
      constructor
      · intro hm; exact Or.inr hm
      · rintro (e | hm)
        · exact absurd e.symm h
        · exact hm

theorem len_eq_of_same_keys (m : GoMap) (names : List String)
    (h : ∀ k, k ∈ m.keys ↔ k ∈ names) : m.len = names.dedup.length := by
  unfold GoMap.len
  rw [← List.card_toFinset, ← List.card_toFinset]
  congr 1
  ext k
  simp only [List.mem_toFinset]
  exact h k

theorem jsonUnmarshal_object (dec : Decoder) (data : String) (members : List (String × Json))
    (hs : dec.scan data = .ok (.object members)) :
    (numbersConvertMembers dec.parseFloat members = true →
      jsonUnmarshal dec data = .ok (objectInterface dec.parseFloat members []).1)
    ∧ (numbersConvertMembers dec.parseFloat members = false →
      ∃ e, jsonUnmarshal dec data = .error e) := by
  have hiff := objectInterface_ok_iff dec.parseFloat members []
  unfold jsonUnmarshal
  rw [hs]
  simp only []
  rcases hr : objectInterface dec.parseFloat members [] with ⟨m, _ | e⟩
  · rw [hr] at hiff
    simp only [true_iff] at hiff
    exact ⟨fun _ => rfl, fun hf => by rw [hiff] at hf; exact absurd hf (by simp)⟩
  · rw [hr] at hiff
    refine ⟨fun ht => ?_, fun _ => ⟨e, rfl⟩⟩
    exact absurd (hiff.mpr ht) (by simp)

/-! ## Lemmas on the outcome of `NewConfig` -/

theorem newConfigLoop_not_found (env : Env) (configName : String) (all rest : List String)
    (h : ∀ p ∈ rest, ¬ fileExists env configName p) :
    newConfigLoop env configName all rest = (none, some (notFoundLoadMsg configName all)) := by
  induction rest with
  | nil => rfl
  | cons q qs ih =>
    have hq : env.Stat (candidate env configName q) ≠ none := h q (List.mem_cons_self q qs)
    obtain ⟨e, he⟩ := Option.ne_none_iff_exists'.mp hq
    simp only [newConfigLoop, he]
    exact ih (fun p hp => h p (List.mem_cons_of_mem q hp))

theorem first_existing_split (env : Env) (configName : String) (paths : List String) :
    (∀ p ∈ paths, ¬ fileExists env configName p)
    ∨ ∃ pre path post, paths = pre ++ path :: post
        ∧ (∀ q ∈ pre, ¬ fileExists env configName q) ∧ fileExists env configName path := by
  induction paths with
  | nil => left; simp
  | cons q qs ih =>
    by_cases hq : fileExists env configName q
    · right
      exact ⟨[], q, qs, rfl, by simp, hq⟩
    · rcases ih with hall | ⟨pre, path, post, he, hpre, hpath⟩
      · left
        intro p hp
        rcases List.mem_cons.mp hp with e | hm
        · rw [e]; exact hq
        · exact hall p hm
      · right
        refine ⟨q :: pre, path, post, by rw [he]; rfl, ?_, hpath⟩
        intro p hp
        rcases List.mem_cons.mp hp with e | hm
        · rw [e]; exact hq
        · exact hpre p hm

theorem loadFile_cases (env : Env) (fullPath : String) :
    (∃ file data, env.ReadFile fullPath = .ok file ∧ env.Unmarshal file = .ok data
        ∧ loadFile env fullPath = (some { data := data }, none))
    ∨ (∃ err, env.ReadFile fullPath = .error err
        ∧ loadFile env fullPath = (none, some ("failed to read config file: " ++ err)))
    ∨ (∃ file err, env.ReadFile fullPath = .ok file ∧ env.Unmarshal file = .error err
        ∧ loadFile env fullPath = (none, some ("failed to parse config file: " ++ err))) := by
  unfold loadFile
  cases hr : env.ReadFile fullPath with
  | error err => right; left; exact ⟨err, rfl, rfl⟩
  | ok file =>
    cases hu : env.Unmarshal file with
    | error err => right; right; exact ⟨file, err, rfl, hu, by simp only [hu]⟩
    | ok data => left; exact ⟨file, data, rfl, hu, by simp only [hu]⟩

theorem failed_ne_notFoundLoad (what err configName : String) (configPaths : List String) :
    "failed to " ++ what ++ err ≠ notFoundLoadMsg configName configPaths := by
  intro h
  have h1 : ("failed to " ++ what ++ err).data.head? = some 'f' := by
    rw [String.append_assoc]
    exact head_append_lit _ _ 'f' _ rfl
  have h2 : (notFoundLoadMsg configName configPaths).data.head? = some 'c' := by
    unfold notFoundLoadMsg
    rw [String.append_assoc, String.append_assoc]
    exact head_append_lit _ _ 'c' _ rfl
  rw [h, h2] at h1
  exact absurd h1 (by decide)

theorem newConfig_eq_loadFile (env : Env) (configName : String) (pre : List String)
    (path : String) (post : List String)
    (hpre : ∀ q ∈ pre, ¬ fileExists env configName q) (hpath : fileExists env configName path) :
    NewConfig env configName (pre ++ path :: post)
      = loadFile env (candidate env configName path) :=
  newConfigLoop_first_match env configName _ pre path post hpre hpath

theorem newConfig_eq_not_found (env : Env) (configName : String) (paths : List String)
    (h : ∀ p ∈ paths, ¬ fileExists env configName p) :
    NewConfig env configName paths = (none, some (notFoundLoadMsg configName paths)) :=
  newConfigLoop_not_found env configName paths paths h

/-! ## Lemmas relating `CheckKeys` and the accessors -/

theorem checkKeys_append_eq (c : Config) (xs ys : List String) :
    CheckKeys c (xs ++ ys) =
      match CheckKeys c xs with
      | some e => some e
      | none => CheckKeys c ys := by
  induction xs with
  | nil => rfl
  | cons k ks ih =>
    rcases checkKeys_head c k with ⟨_, hk⟩ | ⟨_, _, hk⟩ | ⟨_, _, hk⟩
    · rw [List.cons_append, hk, hk, ih]
    · rw [List.cons_append, hk, hk]
    · rw [List.cons_append, hk, hk]

theorem missingMsg_ne_emptyStringMsg (key key2 : String) : missingMsg key ≠ emptyStringMsg key2 := by
  intro h
  have hd := congrArg (fun s : String => s.data.reverse.head?) h
  simp [missingMsg, emptyStringMsg, String.data_append, List.reverse_append] at hd

theorem parseInt_ok_literal (s : String) (v : Int) (h : ParseInt s = (v, none)) :
    int64Literal? s = some v := by
  cases hl : int64Literal? s with
  | none =>
    obtain ⟨x, e, hx⟩ := parseInt_none s hl
    rw [hx] at h
    exact absurd (congrArg Prod.snd h) (by simp)
  | some w =>
    rw [parseInt_some s w hl] at h
    have hw : w = v := congrArg Prod.fst h
    rw [hw]

/-! ## The claims -/

/-- C1: when the value under `key` is a string `s`, `GetIntWithError` succeeds
exactly when `s` is a base-10 integer literal within the `int64` range (optional
sign, then decimal digits only), and then returns its value with no error; for
every other string it returns 0 with the error
`value for key (key) is not an int`, which is never the key-not-found error.
The strings `abc`, the empty string, ` 42`, `12.5` and `9223372036854775808` are
not such literals; `8888` is, with value 8888. -/
theorem getIntWithError_str (ovf : Float64 → Int) (c : Config) (key s : String)
    (h : c.data.get key = some (.str s)) :
    (GetIntWithError ovf c key =
      match int64Literal? s with
      | some v => (v, none)
      | none => (0, some ("value for key '" ++ key ++ "' is not an int")))
    ∧ "value for key '" ++ key ++ "' is not an int" ≠ notFoundMsg key
    ∧ int64Literal? "8888" = some 8888
    ∧ int64Literal? "abc" = none ∧ int64Literal? "" = none ∧ int64Literal? " 42" = none
    ∧ int64Literal? "12.5" = none ∧ int64Literal? "9223372036854775808" = none := by
  refine ⟨?_, typeMsg_ne_notFound key key "' is not an int", by decide, by decide, by decide,
    by decide, by decide, by decide⟩
  unfold GetIntWithError
  rw [h]
  simp only []
  cases hl : int64Literal? s with
  | some v => rw [parseInt_some s v hl]
  | none =>
    obtain ⟨x, e, hx⟩ := parseInt_none s hl
    rw [hx]

/-- C1, at the store of `TestGetInt`: the string `8888` under `key3` yields 8888
and no error. -/
theorem getIntWithError_str_witness :
    intStore.data.get "key3" = some (.str "8888")
    ∧ GetIntWithError (fun _ => 0) intStore "key3" = (8888, none) :=
  ⟨rfl, (getIntWithError_str (fun _ => 0) intStore "key3" "8888" rfl).1⟩

/-- C2, as amended: when the value under `key` is a number `x`, `GetIntWithError`
returns no error and a value in the `int64` range; when `x` is finite with exact
value `q` and `q` truncated toward zero fits an `int64`, the value returned is
`q` truncated toward zero (3.7 gives 3, -3.7 gives -3, 9999 gives 9999). -/
theorem getIntWithError_number (ovf : Float64 → Int) (c : Config) (key : String) (x : Float64)
    (h : c.data.get key = some (.number x)) :
    (GetIntWithError ovf c key).2 = none
    ∧ inInt64 (GetIntWithError ovf c key).1
    ∧ (∀ q, x.toRat? = some q → inInt64 (truncTowardZero q) →
        GetIntWithError ovf c key = (truncTowardZero q, none))
    ∧ GetIntWithError ovf numberStore "a" = (3, none)
    ∧ GetIntWithError ovf numberStore "b" = (-3, none)
    ∧ GetIntWithError ovf intStore "key2" = (9999, none) := by
  have hg := getIntWithError_of_number ovf c key x h
  refine ⟨by rw [hg], ?_, ?_, rfl, rfl, rfl⟩
  · rw [hg]
    exact inInt64_toInt64 ovf x
  · intro q hq hr
    rw [hg]
    cases x with
    | finite m e =>
      simp only [Float64.toRat?, Option.some.injEq] at hq
      subst hq
      simp only [Float64.toInt64, trunc_finite, if_pos hr]
    | inf neg => exact absurd hq (by simp [Float64.toRat?])
    | nan => exact absurd hq (by simp [Float64.toRat?])

/-- C2, at a store holding 3.7: the value returned is 3, with no error. -/
theorem getIntWithError_number_witness :
    numberStore.data.get "a" = some (.number f3_7)
    ∧ GetIntWithError (fun _ => 0) numberStore "a" = (3, none) := by
  refine ⟨rfl, ?_⟩
  have h := (getIntWithError_number (fun _ => 0) numberStore "a" f3_7 rfl).2.2.1
    ((8331659310635418 : ℚ) * (2 : ℚ) ^ (-51 : Int)) rfl
  have e : truncTowardZero ((8331659310635418 : ℚ) * (2 : ℚ) ^ (-51 : Int)) = 3 := by
    have := trunc_finite 8331659310635418 (-51)
    have h3 : (Float64.finite 8331659310635418 (-51)).trunc = some 3 := by decide
    rw [h3] at this
    push_cast at this
    exact (Option.some.inj this).symm
  rw [e] at h
  exact h (by decide)

/-- C2, the claim as stated fails: the JSON number `1e19` is a `float64` whose
integer part, 10000000000000000000, is not the value `GetIntWithError` returns,
whatever the platform does on overflow. -/
theorem getIntWithError_number_counterexample :
    numberStore.data.get "big" = some (.number f1e19)
    ∧ f1e19.trunc = some 10000000000000000000
    ∧ ¬ ∃ ovf, (GetIntWithError ovf numberStore "big").1 = 10000000000000000000 := by
  refine ⟨rfl, by decide, ?_⟩
  rintro ⟨ovf, h⟩
  have hr : inInt64 (GetIntWithError ovf numberStore "big").1 := by
    rw [getIntWithError_of_number ovf numberStore "big" f1e19 rfl]
    exact inInt64_toInt64 ovf f1e19
  rw [h] at hr
  exact absurd hr (by decide)


/-- C3: `CheckKeys` succeeds if and only if every key of the list is present
with a value that is neither `null` nor the empty string. The empty list
succeeds; the values 0, `false`, the empty array and the empty object pass; on
the store of the tests the list key1, key2, key3 succeeds and the list key1,
key4 fails; key1 fails on the store whose key1 is the empty string. -/
theorem checkKeys_none_iff (c : Config) (keys : List String) :
    (CheckKeys c keys = none ↔ ∀ key ∈ keys, keyPasses c key)
    ∧ CheckKeys c [] = none
    ∧ CheckKeys zeroStore ["n", "b", "arr", "obj"] = none
    ∧ CheckKeys testStore ["key1", "key2", "key3"] = none
    ∧ CheckKeys testStore ["key1", "key4"] = some (missingMsg "key4")
    ∧ CheckKeys emptyStringStore ["key1"] = some (emptyStringMsg "key1") :=
  ⟨checkKeys_none_iff_all c keys, rfl, by decide, by decide, by decide, by decide⟩

/-- C4: when `CheckKeys` fails, its error names the first key of the list, in
order, that does not pass: every key before it passes, and the reason is
`does not exist or is empty` when that key is missing or `null`, and
`is an empty string` when it holds the empty string. -/
theorem checkKeys_error_first (c : Config) (keys : List String) (err : String)
    (h : CheckKeys c keys = some err) :
    ∃ pre key post, keys = pre ++ key :: post
      ∧ (∀ k ∈ pre, keyPasses c k)
      ∧ ¬ keyPasses c key
      ∧ (((c.data.get key = none ∨ c.data.get key = some .null) ∧ err = missingMsg key)
          ∨ (c.data.get key = some (.str "") ∧ err = emptyStringMsg key)) := by
  induction keys with
  | nil => exact absurd h (by simp [CheckKeys])
  | cons k ks ih =>
    rcases checkKeys_head c k with ⟨hp, hk⟩ | ⟨hp, hg, hk⟩ | ⟨hp, hg, hk⟩
    · rw [hk] at h
      obtain ⟨pre, key, post, he, hpre, hkey, hr⟩ := ih h
      refine ⟨k :: pre, key, post, by rw [he]; rfl, ?_, hkey, hr⟩
      intro k' hk'
      rcases List.mem_cons.mp hk' with e | e
      · rw [e]; exact hp
      · exact hpre k' e
    · rw [hk] at h
      exact ⟨[], k, ks, rfl, by simp, hp, Or.inl ⟨hg, (Option.some.inj h).symm⟩⟩
    · rw [hk] at h
      exact ⟨[], k, ks, rfl, by simp, hp, Or.inr ⟨hg, (Option.some.inj h).symm⟩⟩

/-- C4, on the store of the tests: for the list key1, key4 the error names key4,
the first key that is missing, after key1 which passes. -/
theorem checkKeys_error_first_witness :
    CheckKeys testStore ["key1", "key4"] = some (missingMsg "key4")
    ∧ ∃ pre key post, ["key1", "key4"] = pre ++ key :: post
      ∧ (∀ k ∈ pre, keyPasses testStore k)
      ∧ ¬ keyPasses testStore key
      ∧ (((testStore.data.get key = none ∨ testStore.data.get key = some .null)
            ∧ missingMsg "key4" = missingMsg key)
          ∨ (testStore.data.get key = some (.str "") ∧ missingMsg "key4" = emptyStringMsg key)) :=
  ⟨by decide, checkKeys_error_first testStore ["key1", "key4"] (missingMsg "key4") (by decide)⟩

/-- C5: each convenience accessor returns the value of its strict form when
the strict form succeeds and the zero value of its type (the empty string, 0,
`false`) when the strict form returns an error. -/
theorem convenience_eq_strict (ovf : Float64 → Int) (c : Config) (key : String) :
    (GetString c key =
      match GetStringWithError c key with
      | (value, none) => value
      | (_, some _) => "")
    ∧ (GetInt ovf c key =
      match GetIntWithError ovf c key with
      | (value, none) => value
      | (_, some _) => 0)
    ∧ (GetBool c key =
      match GetBoolWithError c key with
      | (value, none) => value
      | (_, some _) => false) := by
  refine ⟨?_, ?_, ?_⟩
  · unfold GetString GetStringWithError
    cases c.data.get key with
    | none => rfl
    | some v => cases v <;> rfl
  · unfold GetInt GetIntWithError
    cases c.data.get key with
    | none => rfl
    | some v =>
      cases v with
      | str s =>
        simp only []
        rcases hp : ParseInt s with ⟨x, _ | e⟩ <;> rfl
      | _ => rfl
  · unfold GetBool GetBoolWithError
    cases c.data.get key with
    | none => rfl
    | some v => cases v <;> rfl


/-- C6: on a key absent from the mapping the three strict accessors fail with
the same error, `key (key) not found`; a strict accessor returns that error only
when the key is absent, and on a present key every error it returns is its
type-mismatch error. -/
theorem strict_not_found (ovf : Float64 → Int) (c : Config) (key : String) :
    (c.data.get key = none →
      GetStringWithError c key = ("", some (notFoundMsg key))
      ∧ GetIntWithError ovf c key = (0, some (notFoundMsg key))
      ∧ GetBoolWithError c key = (false, some (notFoundMsg key)))
    ∧ ((GetStringWithError c key).2 = some (notFoundMsg key) → c.data.get key = none)
    ∧ ((GetIntWithError ovf c key).2 = some (notFoundMsg key) → c.data.get key = none)
    ∧ ((GetBoolWithError c key).2 = some (notFoundMsg key) → c.data.get key = none)
    ∧ (∀ v, c.data.get key = some v →
        (∀ e, (GetStringWithError c key).2 = some e → e = notStringMsg key)
        ∧ (∀ e, (GetIntWithError ovf c key).2 = some e → e = notIntMsg key)
        ∧ (∀ e, (GetBoolWithError c key).2 = some e → e = notBoolMsg key))
    ∧ GetStringWithError testStore "key4" = ("", some "key 'key4' not found")
    ∧ GetIntWithError ovf testStore "key1" = (0, some "value for key 'key1' is not an int") := by
  have hs := typeMsg_ne_notFound key key "' is not a string"
  have hi := typeMsg_ne_notFound key key "' is not an int"
  have hb := typeMsg_ne_notFound key key "' is not a boolean"
  refine ⟨?_, ?_, ?_, ?_, ?_, by decide, ?_⟩
  · intro h
    simp only [GetStringWithError, GetIntWithError, GetBoolWithError, h, notFoundMsg, and_self]
  · intro h
    cases hg : c.data.get key with
    | none => rfl
    | some v =>
      simp only [GetStringWithError, hg] at h
      cases v <;> simp only [Option.some.injEq, reduceCtorEq] at h <;> exact absurd h hs
  · intro h
    cases hg : c.data.get key with
    | none => rfl
    | some v =>
      simp only [GetIntWithError, hg] at h
      cases v with
      | str s =>
        simp only [] at h
        rcases hp : ParseInt s with ⟨x, _ | e⟩
        · rw [hp] at h; exact absurd h (by simp)
        · rw [hp] at h
          simp only [Option.some.injEq] at h
          exact absurd h hi
      | _ => simp only [Option.some.injEq, reduceCtorEq] at h <;> exact absurd h hi
  · intro h
    cases hg : c.data.get key with
    | none => rfl
    | some v =>
      simp only [GetBoolWithError, hg] at h
      cases v <;> simp only [Option.some.injEq, reduceCtorEq] at h <;> exact absurd h hb
  · intro v hg
    refine ⟨?_, ?_, ?_⟩
    · intro e h
      simp only [GetStringWithError, hg] at h
      cases v <;> simp only [Option.some.injEq, reduceCtorEq] at h <;> exact h.symm
    · intro e h
      simp only [GetIntWithError, hg] at h
      cases v with
      | str s =>
        simp only [] at h
        rcases hp : ParseInt s with ⟨x, _ | e⟩
        · rw [hp] at h; exact absurd h (by simp)
        · rw [hp] at h
          simp only [Option.some.injEq] at h
          exact h.symm
      | _ => simp only [Option.some.injEq, reduceCtorEq] at h <;> exact h.symm
    · intro e h
      simp only [GetBoolWithError, hg] at h
      cases v <;> simp only [Option.some.injEq, reduceCtorEq] at h <;> exact h.symm
  · rfl


/-- C7: `GetStringWithError` succeeds if and only if the key is present with a
value of the string variant, and then returns that string unchanged, the empty
string included; a number or a boolean is not converted to a string. -/
theorem getStringWithError_iff (c : Config) (key : String) :
    ((GetStringWithError c key).2 = none ↔ ∃ s, c.data.get key = some (.str s))
    ∧ (∀ s, c.data.get key = some (.str s) → GetStringWithError c key = (s, none))
    ∧ (∀ x, c.data.get key = some (.number x) →
        GetStringWithError c key = ("", some (notStringMsg key)))
    ∧ (∀ b, c.data.get key = some (.bool b) →
        GetStringWithError c key = ("", some (notStringMsg key)))
    ∧ GetStringWithError testStore "key1" = ("value1", none)
    ∧ GetStringWithError variantStore "s" = ("", none)
    ∧ GetStringWithError testStore "key2" = ("", some "value for key 'key2' is not a string")
    ∧ GetStringWithError testStore "key3" = ("", some "value for key 'key3' is not a string") := by
  refine ⟨?_, ?_, ?_, ?_, by decide, by decide, by decide, by decide⟩
  · unfold GetStringWithError
    cases c.data.get key with
    | none => simp
    | some v => cases v <;> simp
  · intro s h
    simp only [GetStringWithError, h]
  · intro x h
    simp only [GetStringWithError, h, notStringMsg]
  · intro b h
    simp only [GetStringWithError, h, notStringMsg]

/-- C8: `GetBoolWithError` succeeds if and only if the key is present with a
value of the boolean variant, and then returns that boolean; a string (such as
`true` or `false`) and a number (such as 1 or 0) produce an error, whereas
`GetIntWithError` accepts the numeric string `1`. -/
theorem getBoolWithError_iff (ovf : Float64 → Int) (c : Config) (key : String) :
    ((GetBoolWithError c key).2 = none ↔ ∃ b, c.data.get key = some (.bool b))
    ∧ (∀ b, c.data.get key = some (.bool b) → GetBoolWithError c key = (b, none))
    ∧ (∀ s, c.data.get key = some (.str s) →
        GetBoolWithError c key = (false, some (notBoolMsg key)))
    ∧ (∀ x, c.data.get key = some (.number x) →
        GetBoolWithError c key = (false, some (notBoolMsg key)))
    ∧ GetBoolWithError testStore "key3" = (true, none)
    ∧ GetBoolWithError looksBoolStore "t" = (false, some "value for key 't' is not a boolean")
    ∧ GetBoolWithError looksBoolStore "f" = (false, some "value for key 'f' is not a boolean")
    ∧ GetBoolWithError looksBoolStore "one" = (false, some "value for key 'one' is not a boolean")
    ∧ GetBoolWithError looksBoolStore "zero" = (false, some "value for key 'zero' is not a boolean")
    ∧ GetBoolWithError looksBoolStore "n" = (false, some "value for key 'n' is not a boolean")
    ∧ GetIntWithError ovf looksBoolStore "n" = (1, none) := by
  refine ⟨?_, ?_, ?_, ?_, by decide, by decide, by decide, by decide, by decide, by decide, rfl⟩
  · unfold GetBoolWithError
    cases c.data.get key with
    | none => simp
    | some v => cases v <;> simp
  · intro b h
    simp only [GetBoolWithError, h]
  · intro s h
    simp only [GetBoolWithError, h, notBoolMsg]
  · intro x h
    simp only [GetBoolWithError, h, notBoolMsg]

/-- C9: when the value under `key` is `null`, an array or an object, the three
strict accessors fail, each with its type-mismatch error, which is not the
key-not-found error; `GetIntWithError` fails in the same way on a boolean. An
accessor that succeeds has read a value of the string, number (`float64` or
`int64`) or boolean variant. -/
theorem strict_type_mismatch (ovf : Float64 → Int) (c : Config) (key : String) :
    (∀ v, c.data.get key = some v →
        (v = .null ∨ (∃ xs, v = .array xs) ∨ (∃ kvs, v = .object kvs)) →
        GetStringWithError c key = ("", some (notStringMsg key))
        ∧ GetIntWithError ovf c key = (0, some (notIntMsg key))
        ∧ GetBoolWithError c key = (false, some (notBoolMsg key)))
    ∧ (∀ b, c.data.get key = some (.bool b) →
        GetIntWithError ovf c key = (0, some (notIntMsg key)))
    ∧ notStringMsg key ≠ notFoundMsg key
    ∧ notIntMsg key ≠ notFoundMsg key
    ∧ notBoolMsg key ≠ notFoundMsg key
    ∧ ((GetStringWithError c key).2 = none → ∃ s, c.data.get key = some (.str s))
    ∧ ((GetIntWithError ovf c key).2 = none →
        (∃ x, c.data.get key = some (.number x)) ∨ (∃ i, c.data.get key = some (.int64 i))
        ∨ (∃ s, c.data.get key = some (.str s)))
    ∧ ((GetBoolWithError c key).2 = none → ∃ b, c.data.get key = some (.bool b))
    ∧ GetIntWithError ovf variantStore "nul" = (0, some "value for key 'nul' is not an int")
    ∧ GetStringWithError variantStore "arr" = ("", some "value for key 'arr' is not a string")
    ∧ GetBoolWithError variantStore "obj" = (false, some "value for key 'obj' is not a boolean")
    ∧ GetIntWithError ovf variantStore "b" = (0, some "value for key 'b' is not an int") := by
  refine ⟨?_, ?_, typeMsg_ne_notFound key key "' is not a string",
    typeMsg_ne_notFound key key "' is not an int",
    typeMsg_ne_notFound key key "' is not a boolean", ?_, ?_, ?_, rfl, by decide, by decide, rfl⟩
  · intro v hg hv
    rcases hv with hv | ⟨xs, hv⟩ | ⟨kvs, hv⟩ <;> subst hv <;>
      simp only [GetStringWithError, GetIntWithError, GetBoolWithError, hg, notStringMsg,
        notIntMsg, notBoolMsg, and_self]
  · intro b hg
    simp only [GetIntWithError, hg, notIntMsg]
  · unfold GetStringWithError
    cases c.data.get key with
    | none => simp
    | some v => cases v <;> simp
  · unfold GetIntWithError
    cases c.data.get key with
    | none => simp
    | some v => cases v <;> simp
  · unfold GetBoolWithError
    cases c.data.get key with
    | none => simp
    | some v => cases v <;> simp


/-- C10: when `path` is the first search path whose candidate file exists (no
candidate of the paths `pre` before it exists), `NewConfig` returns what loading
that one candidate gives: the store of its content when it is read and decoded,
the read error when it cannot be read, the parse error when it cannot be
decoded. The paths after it, and what the filesystem holds anywhere else, do not
change the result. -/
theorem newConfig_first_match (env : Env) (configName : String) (pre : List String)
    (path : String) (post : List String)
    (hpre : ∀ q ∈ pre, env.Stat (candidate env configName q) ≠ none)
    (hpath : env.Stat (candidate env configName path) = none) :
    NewConfig env configName (pre ++ path :: post) = loadFile env (candidate env configName path)
    ∧ (∀ file data, env.ReadFile (candidate env configName path) = .ok file →
        env.Unmarshal file = .ok data →
        NewConfig env configName (pre ++ path :: post) = (some { data := data }, none))
    ∧ (∀ err, env.ReadFile (candidate env configName path) = .error err →
        NewConfig env configName (pre ++ path :: post)
          = (none, some ("failed to read config file: " ++ err)))
    ∧ (∀ file err, env.ReadFile (candidate env configName path) = .ok file →
        env.Unmarshal file = .error err →
        NewConfig env configName (pre ++ path :: post)
          = (none, some ("failed to parse config file: " ++ err)))
    ∧ (∀ (env2 : Env) (post2 : List String),
        env2.ExpandEnv = env.ExpandEnv → env2.Join = env.Join →
        env2.Unmarshal = env.Unmarshal →
        (∀ q ∈ pre, env2.Stat (candidate env configName q) ≠ none) →
        env2.Stat (candidate env configName path) = none →
        env2.ReadFile (candidate env configName path)
          = env.ReadFile (candidate env configName path) →
        NewConfig env2 configName (pre ++ path :: post2)
          = NewConfig env configName (pre ++ path :: post)) := by
  have hmain : NewConfig env configName (pre ++ path :: post)
      = loadFile env (candidate env configName path) :=
    newConfigLoop_first_match env configName _ pre path post hpre hpath
  refine ⟨hmain, ?_, ?_, ?_, ?_⟩
  · intro file data hr hu
    rw [hmain]
    simp only [loadFile, hr, hu]
  · intro err hr
    rw [hmain]
    simp only [loadFile, hr]
  · intro file err hr hu
    rw [hmain]
    simp only [loadFile, hr, hu]
  · intro env2 post2 hE hJ hU hpre2 hpath2 hR
    have hc : ∀ q, candidate env2 configName q = candidate env configName q := by
      intro q
      simp only [candidate, hE, hJ]
    have h2 : NewConfig env2 configName (pre ++ path :: post2)
        = loadFile env2 (candidate env2 configName path) :=
      newConfigLoop_first_match env2 configName _ pre path post2
        (fun q hq => by rw [hc]; exact hpre2 q hq) (by rw [hc]; exact hpath2)
    rw [h2, hmain, hc]
    simp only [loadFile, hR, hU]

/-- C10, on a host where `/a` and `/b` both hold the file with different
content and `/missing` does not: searching `/missing`, `/a`, `/b` loads the
content found under `/a`. -/
theorem newConfig_first_match_witness :
    (∀ q ∈ ["/missing"], twoDirEnv.Stat (candidate twoDirEnv "config.json" q) ≠ none)
    ∧ twoDirEnv.Stat (candidate twoDirEnv "config.json" "/a") = none
    ∧ twoDirEnv.Stat (candidate twoDirEnv "config.json" "/b") = none
    ∧ NewConfig twoDirEnv "config.json" (["/missing"] ++ "/a" :: ["/b"])
        = (some { data := [("k", .str "A")] }, none) :=
  ⟨by decide, by decide, by decide,
    (newConfig_first_match twoDirEnv "config.json" ["/missing"] "/a" ["/b"]
      (by decide) (by decide)).2.1 "\x7b\"k\": \"A\"\x7d" [("k", .str "A")] rfl rfl⟩

/-- C11: `NewConfig` returns the not-found error if and only if the file exists
under none of the search paths, as for the empty list of paths; with that error
it returns no store. The message names the file and lists the search paths as
they were passed, in order, and depends on nothing else: another host on which
the file is also missing gives the same result. -/
theorem newConfig_not_found_iff (env : Env) (configName : String) (configPaths : List String) :
    ((NewConfig env configName configPaths).2 = some (notFoundLoadMsg configName configPaths)
      ↔ ∀ p ∈ configPaths, ¬ fileExists env configName p)
    ∧ ((∀ p ∈ configPaths, ¬ fileExists env configName p) →
        NewConfig env configName configPaths
          = (none, some (notFoundLoadMsg configName configPaths)))
    ∧ (∀ env2 : Env, (∀ p ∈ configPaths, ¬ fileExists env configName p) →
        (∀ p ∈ configPaths, ¬ fileExists env2 configName p) →
        NewConfig env2 configName configPaths = NewConfig env configName configPaths)
    ∧ NewConfig env configName [] = (none, some (notFoundLoadMsg configName []))
    ∧ notFoundLoadMsg configName configPaths
        = "config file " ++ configName ++ " not found in paths: "
            ++ ("[" ++ " ".intercalate configPaths ++ "]")
    ∧ NewConfig (oneFileEnv testText) "config.json" ["/opt", "$HOME/conf"]
        = (none, some "config file config.json not found in paths: [/opt $HOME/conf]")
    ∧ NewConfig (oneFileEnv testText) "config.json" []
        = (none, some "config file config.json not found in paths: []") := by
  refine ⟨⟨?_, ?_⟩, newConfig_eq_not_found env configName configPaths, ?_, rfl, rfl, rfl, rfl⟩
  · intro h
    rcases first_existing_split env configName configPaths with hall | ⟨pre, path, post, he, hpre, hp⟩
    · exact hall
    · exfalso
      rw [he, newConfig_eq_loadFile env configName pre path post hpre hp] at h
      rw [← he] at h
      rcases loadFile_cases env (candidate env configName path) with
        ⟨_, _, _, _, hl⟩ | ⟨err, _, hl⟩ | ⟨_, err, _, _, hl⟩
      · rw [hl] at h
        exact absurd h (by simp)
      · rw [hl] at h
        exact failed_ne_notFoundLoad "read config file: " err _ _
          (by rw [String.append_assoc]; exact Option.some.inj h)
      · rw [hl] at h
        exact failed_ne_notFoundLoad "parse config file: " err _ _
          (by rw [String.append_assoc]; exact Option.some.inj h)
  · intro h
    rw [newConfig_eq_not_found env configName configPaths h]
  · intro env2 h1 h2
    rw [newConfig_eq_not_found env configName configPaths h1,
      newConfig_eq_not_found env2 configName configPaths h2]

/-- C12, as amended: when the file that `NewConfig` finds and reads is malformed
JSON, or its top-level value is a number, a string, a boolean or an array,
`NewConfig` fails with the parse error `failed to parse config file` and returns
no store; when the top-level value is `null`, `NewConfig` returns a store with
an empty mapping and no error. -/
theorem newConfig_parse_error (env : Env) (dec : Decoder) (configName : String)
    (pre : List String) (path : String) (post : List String) (content : String)
    (hU : env.Unmarshal = jsonUnmarshal dec)
    (hpre : ∀ q ∈ pre, ¬ fileExists env configName q) (hpath : fileExists env configName path)
    (hread : env.ReadFile (candidate env configName path) = .ok content) :
    (∀ e, dec.scan content = .error e →
      NewConfig env configName (pre ++ path :: post)
        = (none, some ("failed to parse config file: " ++ e)))
    ∧ (∀ j, dec.scan content = .ok j →
        ((∃ lit, j = .number lit) ∨ (∃ s, j = .str s) ∨ (∃ b, j = .bool b) ∨ (∃ xs, j = .array xs)) →
        ∃ e, NewConfig env configName (pre ++ path :: post)
          = (none, some ("failed to parse config file: " ++ e)))
    ∧ (dec.scan content = .ok .null →
        NewConfig env configName (pre ++ path :: post) = (some { data := [] }, none)) := by
  have hmain := newConfig_eq_loadFile env configName pre path post hpre hpath
  refine ⟨?_, ?_, ?_⟩
  · intro e hs
    rw [hmain]
    simp only [loadFile, hread, hU, jsonUnmarshal, hs]
  · intro j hs hj
    rw [hmain]
    rcases hj with ⟨lit, rfl⟩ | ⟨s, rfl⟩ | ⟨b, rfl⟩ | ⟨xs, rfl⟩
    · exact ⟨mapTypeError "number", by simp only [loadFile, hread, hU, jsonUnmarshal, hs]⟩
    · exact ⟨mapTypeError "string", by simp only [loadFile, hread, hU, jsonUnmarshal, hs]⟩
    · exact ⟨mapTypeError "bool", by simp only [loadFile, hread, hU, jsonUnmarshal, hs]⟩
    · exact ⟨mapTypeError "array", by simp only [loadFile, hread, hU, jsonUnmarshal, hs]⟩
  · intro hs
    rw [hmain]
    simp only [loadFile, hread, hU, jsonUnmarshal, hs]

/-- C12, on a host whose file holds the array `[1]`: `NewConfig` fails with the
parse error and returns no store. -/
theorem newConfig_parse_error_witness :
    (oneFileEnv "[1]").Unmarshal = jsonUnmarshal exampleDecoder
    ∧ (∀ q ∈ ["/opt"], ¬ fileExists (oneFileEnv "[1]") "config.json" q)
    ∧ fileExists (oneFileEnv "[1]") "config.json" "/etc/app"
    ∧ (oneFileEnv "[1]").ReadFile (candidate (oneFileEnv "[1]") "config.json" "/etc/app") = .ok "[1]"
    ∧ exampleDecoder.scan "[1]" = .ok (.array [.number "1"])
    ∧ ∃ e, NewConfig (oneFileEnv "[1]") "config.json" (["/opt"] ++ "/etc/app" :: [])
        = (none, some ("failed to parse config file: " ++ e)) :=
  ⟨rfl, by decide, by decide, rfl, rfl,
    (newConfig_parse_error (oneFileEnv "[1]") exampleDecoder "config.json" ["/opt"] "/etc/app" []
      "[1]" rfl (by decide) (by decide) rfl).2.1 (.array [.number "1"]) rfl
      (Or.inr (Or.inr (Or.inr ⟨_, rfl⟩)))⟩

/-- C12, the claim as stated fails: a file whose content is `null`, a top-level
value that is not an object, is found and read, and `NewConfig` returns a store
and no error. -/
theorem newConfig_parse_error_counterexample :
    fileExists (oneFileEnv "null") "config.json" "/etc/app"
    ∧ (oneFileEnv "null").ReadFile (candidate (oneFileEnv "null") "config.json" "/etc/app")
        = .ok "null"
    ∧ exampleDecoder.scan "null" = .ok .null
    ∧ NewConfig (oneFileEnv "null") "config.json" ["/etc/app"] = (some { data := [] }, none) :=
  ⟨by decide, rfl, rfl, rfl⟩

/-- C13, as amended: when the file that `NewConfig` finds and reads is a valid
JSON object all of whose numbers, at any depth, convert to a `float64`,
`NewConfig` succeeds, and the mapping of the store has exactly as many keys as
the object has distinct top-level keys: those keys and no other are present.
The text of the tests, `{"key1": "value1", "key2": 9999, "key3": true}`, gives
the store of the tests, of 3 keys. -/
theorem newConfig_object (env : Env) (dec : Decoder) (configName : String)
    (pre : List String) (path : String) (post : List String) (content : String)
    (members : List (String × Json))
    (hU : env.Unmarshal = jsonUnmarshal dec)
    (hpre : ∀ q ∈ pre, ¬ fileExists env configName q) (hpath : fileExists env configName path)
    (hread : env.ReadFile (candidate env configName path) = .ok content)
    (hscan : dec.scan content = .ok (.object members))
    (hnum : numbersConvertMembers dec.parseFloat members = true) :
    (∃ store, NewConfig env configName (pre ++ path :: post) = (some store, none)
      ∧ store.data.len = (memberNames members).dedup.length
      ∧ (∀ k ∈ memberNames members, store.data.get k ≠ none)
      ∧ (∀ k, store.data.get k ≠ none → k ∈ memberNames members))
    ∧ NewConfig (oneFileEnv testText) "config.json" ["/etc/app"] = (some testStore, none)
    ∧ testStore.data.len = 3
    ∧ (∃ store, NewConfig (oneFileEnv repeatedKeyText) "config.json" ["/etc/app"]
          = (some store, none) ∧ store.data.len = 1) := by
  refine ⟨?_, rfl, by decide, ⟨_, rfl, by decide⟩⟩
  have hmain := newConfig_eq_loadFile env configName pre path post hpre hpath
  have hun := (jsonUnmarshal_object dec content members hscan).1 hnum
  have hkeys : ∀ k, k ∈ (objectInterface dec.parseFloat members []).1.keys
      ↔ k ∈ memberNames members := by
    intro k
    rw [mem_keys_objectInterface]
    simp [GoMap.keys]
  refine ⟨{ data := (objectInterface dec.parseFloat members []).1 }, ?_, ?_, ?_, ?_⟩
  · rw [hmain]
    simp only [loadFile, hread, hU, hun]
  · exact len_eq_of_same_keys _ _ hkeys
  · intro k hk
    exact (get_ne_none_iff_mem_keys _ k).mpr ((hkeys k).mpr hk)
  · intro k hk
    exact (hkeys k).mp ((get_ne_none_iff_mem_keys _ k).mp hk)

/-- C13, on the host whose file is the text of the tests: the object is valid,
its one number converts, and `NewConfig` returns a store whose mapping has as
many keys as the object has distinct top-level keys. -/
theorem newConfig_object_witness :
    (oneFileEnv testText).Unmarshal = jsonUnmarshal exampleDecoder
    ∧ fileExists (oneFileEnv testText) "config.json" "/etc/app"
    ∧ exampleDecoder.scan testText
        = .ok (.object [("key1", .str "value1"), ("key2", .number "9999"), ("key3", .bool true)])
    ∧ ∃ store, NewConfig (oneFileEnv testText) "config.json" ([] ++ "/etc/app" :: [])
          = (some store, none)
        ∧ store.data.len = (memberNames
            [("key1", .str "value1"), ("key2", .number "9999"), ("key3", .bool true)]).dedup.length
        ∧ (∀ k ∈ memberNames
              [("key1", .str "value1"), ("key2", .number "9999"), ("key3", .bool true)],
            store.data.get k ≠ none)
        ∧ (∀ k, store.data.get k ≠ none → k ∈ memberNames
              [("key1", .str "value1"), ("key2", .number "9999"), ("key3", .bool true)]) :=
  ⟨rfl, by decide, rfl,
    (newConfig_object (oneFileEnv testText) exampleDecoder "config.json" [] "/etc/app" [] testText
      [("key1", .str "value1"), ("key2", .number "9999"), ("key3", .bool true)]
      rfl (by simp) (by decide) rfl rfl rfl).1⟩

/-- C13, the claim as stated fails: the file holds the valid JSON object
`{"big": 1e400}`, it is found and read, and `NewConfig` returns no store but the
parse error, because the number is beyond the `float64` range. -/
theorem newConfig_object_counterexample :
    fileExists (oneFileEnv bigNumberText) "config.json" "/etc/app"
    ∧ (oneFileEnv bigNumberText).ReadFile
        (candidate (oneFileEnv bigNumberText) "config.json" "/etc/app") = .ok bigNumberText
    ∧ exampleDecoder.scan bigNumberText = .ok (.object [("big", .number "1e400")])
    ∧ NewConfig (oneFileEnv bigNumberText) "config.json" ["/etc/app"]
        = (none, some ("failed to parse config file: "
            ++ "json: cannot unmarshal number 1e400 into Go value of type float64")) :=
  ⟨by decide, rfl, rfl, rfl⟩

/-- C14: `NewConfig` returns either no store and an error, or a store and no
error, never both and never neither; a store it returns holds the whole result
of decoding the file of the first search path under which the file exists. -/
theorem newConfig_store_xor_error (env : Env) (configName : String) (configPaths : List String) :
    (((NewConfig env configName configPaths).1 = none
        ∧ (NewConfig env configName configPaths).2 ≠ none)
      ∨ ((NewConfig env configName configPaths).1 ≠ none
        ∧ (NewConfig env configName configPaths).2 = none))
    ∧ (∀ store, (NewConfig env configName configPaths).1 = some store →
        ∃ pre path post file, configPaths = pre ++ path :: post
          ∧ (∀ q ∈ pre, ¬ fileExists env configName q) ∧ fileExists env configName path
          ∧ env.ReadFile (candidate env configName path) = .ok file
          ∧ env.Unmarshal file = .ok store.data) := by
  rcases first_existing_split env configName configPaths with hall | ⟨pre, path, post, he, hpre, hp⟩
  · rw [newConfig_eq_not_found env configName configPaths hall]
    exact ⟨Or.inl ⟨rfl, by simp⟩, fun store h => absurd h (by simp)⟩
  · have hmain := newConfig_eq_loadFile env configName pre path post hpre hp
    rw [← he] at hmain
    rw [hmain]
    rcases loadFile_cases env (candidate env configName path) with
      ⟨file, data, hr, hu, hl⟩ | ⟨err, _, hl⟩ | ⟨_, err, _, _, hl⟩
    · rw [hl]
      refine ⟨Or.inr ⟨by simp, rfl⟩, ?_⟩
      intro store h
      have hs : store = { data := data } := (Option.some.inj h).symm
      subst hs
      exact ⟨pre, path, post, file, he, hpre, hp, hr, hu⟩
    · rw [hl]
      exact ⟨Or.inl ⟨rfl, by simp⟩, fun store h => absurd h (by simp)⟩
    · rw [hl]
      exact ⟨Or.inl ⟨rfl, by simp⟩, fun store h => absurd h (by simp)⟩

/-- C15: `CheckKeys` on a concatenation returns the result on the first list
when that is an error, and the result on the second list otherwise; so it
succeeds on the concatenation if and only if it succeeds on both lists. A key
repeated after an occurrence of it leaves the result unchanged, and two lists
with the same keys, whatever the repetitions, succeed or fail together. -/
theorem checkKeys_append (c : Config) (xs ys : List String) :
    (CheckKeys c (xs ++ ys) =
      match CheckKeys c xs with
      | some e => some e
      | none => CheckKeys c ys)
    ∧ (CheckKeys c (xs ++ ys) = none ↔ CheckKeys c xs = none ∧ CheckKeys c ys = none)
    ∧ (∀ k ∈ xs, CheckKeys c (xs ++ k :: ys) = CheckKeys c (xs ++ ys))
    ∧ ((∀ k, k ∈ xs ↔ k ∈ ys) → (CheckKeys c xs = none ↔ CheckKeys c ys = none))
    ∧ CheckKeys testStore (["key1", "key4"] ++ ["key5"]) = CheckKeys testStore ["key1", "key4"]
    ∧ CheckKeys testStore (["key1", "key2"] ++ ["key1", "key3", "key2"]) = none := by
  refine ⟨checkKeys_append_eq c xs ys, ?_, ?_, ?_, by decide, by decide⟩
  · rw [checkKeys_append_eq]
    cases CheckKeys c xs <;> simp
  · intro k hk
    rw [checkKeys_append_eq c xs (k :: ys), checkKeys_append_eq c xs ys]
    cases hx : CheckKeys c xs with
    | some e => rfl
    | none =>
      have hp : keyPasses c k := (checkKeys_none_iff_all c xs).mp hx k hk
      rcases checkKeys_head c k with ⟨_, h⟩ | ⟨hn, _, _⟩ | ⟨hn, _, _⟩
      · exact h ys
      · exact absurd hp hn
      · exact absurd hp hn
  · intro h
    rw [checkKeys_none_iff_all, checkKeys_none_iff_all]
    exact ⟨fun hx k hk => hx k ((h k).mpr hk), fun hy k hk => hy k ((h k).mp hk)⟩

/-- C16: when `GetIntWithError` or `GetBoolWithError` succeeds on a key,
`CheckKeys` succeeds on that key alone; when `GetStringWithError` succeeds with
the string `s`, `CheckKeys` succeeds on the key exactly when `s` is not empty;
and when `CheckKeys` fails on the key with the reason
`does not exist or is empty`, the three strict accessors fail on it. -/
theorem accessors_and_checkKeys (ovf : Float64 → Int) (c : Config) (key : String) :
    ((GetIntWithError ovf c key).2 = none → CheckKeys c [key] = none)
    ∧ ((GetBoolWithError c key).2 = none → CheckKeys c [key] = none)
    ∧ (∀ s, GetStringWithError c key = (s, none) → (CheckKeys c [key] = none ↔ s ≠ ""))
    ∧ (CheckKeys c [key] = some (missingMsg key) →
        (GetStringWithError c key).2 ≠ none ∧ (GetIntWithError ovf c key).2 ≠ none
        ∧ (GetBoolWithError c key).2 ≠ none)
    ∧ GetIntWithError ovf intStore "key3" = (8888, none)
    ∧ CheckKeys intStore ["key3"] = none
    ∧ GetStringWithError emptyStringStore "key1" = ("", none)
    ∧ CheckKeys emptyStringStore ["key1"] = some (emptyStringMsg "key1")
    ∧ CheckKeys variantStore ["nul"] = some (missingMsg "nul") := by
  refine ⟨?_, ?_, ?_, ?_, rfl, by decide, by decide, by decide, by decide⟩
  · intro h
    cases hg : c.data.get key with
    | none => simp [GetIntWithError, hg] at h
    | some v =>
      cases v with
      | str s =>
        by_cases hs : s = ""
        · subst hs
          have hp : ParseInt "" = (0, some .ErrSyntax) := rfl
          simp [GetIntWithError, hg, hp] at h
        · simp only [CheckKeys, hg, if_neg hs]
      | null => simp [GetIntWithError, hg] at h
      | bool b => simp [GetIntWithError, hg] at h
      | number f => simp only [CheckKeys, hg]
      | int64 i => simp only [CheckKeys, hg]
      | array xs => simp [GetIntWithError, hg] at h
      | object kvs => simp [GetIntWithError, hg] at h
  · intro h
    cases hg : c.data.get key with
    | none => simp [GetBoolWithError, hg] at h
    | some v =>
      cases v with
      | bool b => simp only [CheckKeys, hg]
      | _ => simp [GetBoolWithError, hg] at h
  · intro s h
    cases hg : c.data.get key with
    | none => simp [GetStringWithError, hg] at h
    | some v =>
      cases v with
      | str t =>
        simp only [GetStringWithError, hg, Prod.mk.injEq, and_true] at h
        subst h
        by_cases hs : t = ""
        · simp [CheckKeys, hg, hs]
        · simp [CheckKeys, hg, hs]
      | _ => simp [GetStringWithError, hg] at h
  · intro h
    rcases checkKeys_head c key with ⟨_, hk⟩ | ⟨_, hg, _⟩ | ⟨_, _, hk⟩
    · rw [hk] at h
      exact absurd h (by simp [CheckKeys])
    · rcases hg with hg | hg <;>
        simp [GetStringWithError, GetIntWithError, GetBoolWithError, hg]
    · rw [hk] at h
      exact absurd (Option.some.inj h).symm (missingMsg_ne_emptyStringMsg key key)

/-- C17: on any key, `GetStringWithError` and `GetBoolWithError` do not both
succeed, `GetBoolWithError` and `GetIntWithError` do not both succeed, and when
`GetIntWithError` and `GetStringWithError` both succeed the integer returned is
the value of the returned string read as a base-10 integer literal. -/
theorem accessors_exclusive (ovf : Float64 → Int) (c : Config) (key : String) :
    ¬ ((GetStringWithError c key).2 = none ∧ (GetBoolWithError c key).2 = none)
    ∧ ¬ ((GetBoolWithError c key).2 = none ∧ (GetIntWithError ovf c key).2 = none)
    ∧ (∀ s v, GetStringWithError c key = (s, none) → GetIntWithError ovf c key = (v, none) →
        int64Literal? s = some v)
    ∧ GetStringWithError intStore "key3" = ("8888", none)
    ∧ GetIntWithError ovf intStore "key3" = (8888, none)
    ∧ int64Literal? "8888" = some 8888 := by
  refine ⟨?_, ?_, ?_, by decide, rfl, by decide⟩
  · rintro ⟨hs, hb⟩
    cases hg : c.data.get key with
    | none => simp [GetStringWithError, hg] at hs
    | some v => cases v <;> simp [GetStringWithError, GetBoolWithError, hg] at hs hb
  · rintro ⟨hb, hi⟩
    cases hg : c.data.get key with
    | none => simp [GetBoolWithError, hg] at hb
    | some v => cases v <;> simp [GetIntWithError, GetBoolWithError, hg] at hb hi
  · intro s v hs hi
    cases hg : c.data.get key with
    | none => simp [GetStringWithError, hg] at hs
    | some x =>
      cases x with
      | str t =>
        simp only [GetStringWithError, hg, Prod.mk.injEq, and_true] at hs
        subst hs
        simp only [GetIntWithError, hg] at hi
        rcases hp : ParseInt t with ⟨w, _ | e⟩
        · rw [hp] at hi
          simp only [Prod.mk.injEq, and_true] at hi
          subst hi
          exact parseInt_ok_literal t w hp
        · rw [hp] at hi
          exact absurd (congrArg Prod.snd hi) (by simp)
      | _ => simp [GetStringWithError, hg] at hs

end Config
